import Mathlib

/-!
Verification of the valiqor tracing SDK core (redaction, file sink, session
engine) against its specification.  The Python source is shallowly embedded:
strings are `List Char`, Python `re` patterns are transcribed into a small
regular-expression type with Python's leftmost / first-alternative / greedy
backtracking semantics, dicts are ordered association lists with Python's
insertion-order update semantics, and the stateful `FileSink` / `Trace`
classes become explicit state passing.  Character classes (`\w`, `\s`, `\d`)
and `re.IGNORECASE` are modelled over ASCII, which covers every character the
source and its tests manipulate.
-/

namespace Valiqor

/-- Python strings are modelled as lists of characters. -/
abbrev K := List Char

/-! ## Character classes (ASCII model of Python `re` classes) -/

/-- Python `\w` (ASCII): letters, digits, underscore. -/
def isWordChar (c : Char) : Bool := c.isAlphanum || c = '_'

/-- Python `\s` (ASCII): space, tab, newline, carriage return, vertical tab, form feed. -/
def isSpaceChar (c : Char) : Bool :=
  c = ' ' || c = '\t' || c = '\n' || c = '\r' || c = Char.ofNat 11 || c = Char.ofNat 12

/-- Python `\d` (ASCII). -/
def isDigitChar (c : Char) : Bool := c.isDigit

/-- The class `[\w\-]` used by the api-key pattern's tail. -/
def isWordDash (c : Char) : Bool := isWordChar c || c = '-'

/-- The single-quote character (spelled via its code point). -/
def squote : Char := Char.ofNat 39

/-- The class `["\']` of quote characters. -/
def isQuoteChar (c : Char) : Bool := c = '"' || c = squote

/-- The class `[:=]`. -/
def isColonEq (c : Char) : Bool := c = ':' || c = '='

/-- The class `[\s\-]` used as separator in the credit-card and phone patterns. -/
def isSepChar (c : Char) : Bool := isSpaceChar c || c = '-'

/-! ## A small regular-expression engine with Python backtracking semantics -/

/-- Regular expressions as used by the source's patterns: empty, a one-char
class, concatenation, ordered alternation, a word boundary `\b`, and greedy
repetition `{lo,hi}` of a one-char class (every repetition in the source's
patterns repeats a single character class). -/
inductive RE where
  | eps : RE
  | cls (f : Char → Bool) : RE
  | seq (a b : RE) : RE
  | alt (a b : RE) : RE
  | wb : RE
  | repC (lo : Nat) (hi : Option Nat) (f : Char → Bool) : RE

/-- Is the character (if any) a word character?  Used for `\b`. -/
def optWord : Option Char → Bool
  | none => false
  | some c => isWordChar c

/-- Word-boundary test between a previous character and the rest of the input. -/
def atBoundary (p : Option Char) (s : List Char) : Bool :=
  optWord p != optWord s.head?

/-- The last character among the first `n` characters of `s`, or `p` when
`n = 0`: the character preceding the position reached after consuming `n`
characters. -/
def charAfter (p : Option Char) (s : List Char) (n : Nat) : Option Char :=
  if n = 0 then p else (s.take n).getLast?

/-- Length of the longest prefix of `s` all of whose characters satisfy `f`. -/
def countLeading (f : Char → Bool) : List Char → Nat
  | [] => 0
  | c :: rest => if f c then countLeading f rest + 1 else 0

/-- Candidate lengths, in greedy (longest-first) order, for matching
`f{lo,hi}` at the front of `s`. -/
def repLens (f : Char → Bool) (lo : Nat) (hi : Option Nat) (s : List Char) : List Nat :=
  let run := countLeading f s
  let top := match hi with
    | none => run
    | some h => min h run
  if lo ≤ top then (List.range (top + 1 - lo)).map (fun j => top - j) else []

/-- All lengths, in Python's backtracking priority order, at which `re`
matches a prefix of `s`, with `p` the character preceding `s` (for `\b`). -/
def reLens : RE → Option Char → List Char → List Nat
  | .eps, _, _ => [0]
  | .wb, p, s => if atBoundary p s then [0] else []
  | .cls _, _, [] => []
  | .cls f, _, c :: _ => if f c then [1] else []
  | .seq a b, p, s =>
      (reLens a p s).flatMap fun n =>
        (reLens b (charAfter p s n) (s.drop n)).map (fun m => n + m)
  | .alt a b, p, s => reLens a p s ++ reLens b p s
  | .repC lo hi f, _, s => repLens f lo hi s

/-- The length of the match Python's engine produces for `re` at the front of
`s` (first alternative, greedy with backtracking), or `none`. -/
def matchLen (re : RE) (p : Option Char) (s : List Char) : Option Nat :=
  (reLens re p s).head?

/-- The redaction marker `"[REDACTED]"`. -/
def markerChars : K := "[REDACTED]".data

/-- `re.sub(pattern, "[REDACTED]", ·)`: scan left to right; at a match of
`n ≥ 1` characters emit the marker and continue after the match, otherwise
copy one character.  The source's patterns never match the empty string, so
the zero-length case (which copies one character) is unreachable.  Every step
consumes at least one input character, so a fuel of `s.length` suffices; the
out-of-fuel branch (which returns the rest unchanged) is unreachable from
`reSub`. -/
def reSubAux : Nat → RE → Option Char → List Char → List Char
  | _, _, _, [] => []
  | 0, _, _, s => s
  | fuel + 1, re, p, c :: rest =>
    match matchLen re p (c :: rest) with
    | some (n + 1) =>
        markerChars ++
          reSubAux fuel re (charAfter p (c :: rest) (n + 1)) ((c :: rest).drop (n + 1))
    | _ => c :: reSubAux fuel re (some c) rest

/-- `pattern.sub("[REDACTED]", s)` from the start of the string. -/
def reSub (re : RE) (s : List Char) : List Char := reSubAux s.length re none s

/-! ## The source's seven patterns (`PATTERNS` in redact.py) -/

/-- A literal character. -/
def chr (c : Char) : RE := .cls (fun x => x = c)

/-- A case-insensitive literal character (`re.IGNORECASE`, ASCII). -/
def chrCI (c : Char) : RE := .cls (fun x => x.toLower = c)

/-- Concatenation of a list of regexes. -/
def catR (l : List RE) : RE := l.foldr .seq .eps

/-- A case-insensitive literal string. -/
def strCI (l : K) : RE := catR (l.map chrCI)

/-- `r?`: greedy option. -/
def optR (r : RE) : RE := .alt r .eps

/-- `(sk-|api[_-]?key|bearer\s+)[\w\-]{20,}` with `re.IGNORECASE`. -/
def apiKeyRE : RE :=
  .seq
    (.alt (strCI "sk-".data)
      (.alt (catR [strCI "api".data, optR (.cls (fun c => c = '_' || c = '-')),
                   strCI "key".data])
        (.seq (strCI "bearer".data) (.repC 1 none isSpaceChar))))
    (.repC 20 none isWordDash)

/-- `(token|jwt|auth)["\']?\s*[:=]\s*["\']?[\w\-\.]{20,}` with `re.IGNORECASE`. -/
def tokenRE : RE :=
  catR [.alt (strCI "token".data) (.alt (strCI "jwt".data) (strCI "auth".data)),
        optR (.cls isQuoteChar),
        .repC 0 none isSpaceChar,
        .cls isColonEq,
        .repC 0 none isSpaceChar,
        optR (.cls isQuoteChar),
        .repC 20 none (fun c => isWordChar c || c = '-' || c = '.')]

/-- `(password|passwd|pwd)["\']?\s*[:=]\s*["\']?[\w\S]{6,}` with `re.IGNORECASE`. -/
def passwordRE : RE :=
  catR [.alt (strCI "password".data) (.alt (strCI "passwd".data) (strCI "pwd".data)),
        optR (.cls isQuoteChar),
        .repC 0 none isSpaceChar,
        .cls isColonEq,
        .repC 0 none isSpaceChar,
        optR (.cls isQuoteChar),
        .repC 6 none (fun c => isWordChar c || !isSpaceChar c)]

/-- `\b[A-Za-z0-9._%+-]+@[A-Za-z0-9.-]+\.[A-Z|a-z]{2,}\b` (the `|` inside the
last class is a literal character, as in the source). -/
def emailRE : RE :=
  catR [.wb,
        .repC 1 none (fun c => c.isAlphanum || c = '.' || c = '_' || c = '%' || c = '+' || c = '-'),
        chr '@',
        .repC 1 none (fun c => c.isAlphanum || c = '.' || c = '-'),
        chr '.',
        .repC 2 none (fun c => c.isAlpha || c = '|'),
        .wb]

/-- `\b\d{3}-\d{2}-\d{4}\b`. -/
def ssnRE : RE :=
  catR [.wb, .repC 3 (some 3) isDigitChar, chr '-',
        .repC 2 (some 2) isDigitChar, chr '-',
        .repC 4 (some 4) isDigitChar, .wb]

/-- `\b\d{4}[\s\-]?\d{4}[\s\-]?\d{4}[\s\-]?\d{4}\b`. -/
def creditCardRE : RE :=
  catR [.wb, .repC 4 (some 4) isDigitChar, optR (.cls isSepChar),
        .repC 4 (some 4) isDigitChar, optR (.cls isSepChar),
        .repC 4 (some 4) isDigitChar, optR (.cls isSepChar),
        .repC 4 (some 4) isDigitChar, .wb]

/-- `\b(\+\d{1,3}[\s\-]?)?\(?\d{3}\)?[\s\-]?\d{3}[\s\-]?\d{4}\b`. -/
def phoneRE : RE :=
  catR [.wb,
        optR (catR [chr '+', .repC 1 (some 3) isDigitChar, optR (.cls isSepChar)]),
        optR (chr '('),
        .repC 3 (some 3) isDigitChar,
        optR (chr ')'),
        optR (.cls isSepChar),
        .repC 3 (some 3) isDigitChar,
        optR (.cls isSepChar),
        .repC 4 (some 4) isDigitChar,
        .wb]

/-- The patterns in the dictionary order of `PATTERNS` in redact.py. -/
def patternOrder : List RE :=
  [apiKeyRE, tokenRE, passwordRE, emailRE, ssnRE, creditCardRE, phoneRE]

/-- `redact_string`: apply each pattern's substitution in order. -/
def redactStringL (s : K) : K := patternOrder.foldl (fun t re => reSub re t) s

/-! ## JSON-like structured values (the inputs of `safe`) -/

/-- The structured values `safe` handles: `None`, booleans, numbers (ints and
floats are returned unchanged, so one numeric constructor suffices), strings,
dicts (ordered key/value lists; the source only ever passes string keys),
lists, tuples and sets (a set is modelled by the list of its iteration
order). -/
inductive Value where
  | vnull : Value
  | vbool (b : Bool) : Value
  | vnum (n : Int) : Value
  | vstr (s : K) : Value
  | vdict (kvs : List (K × Value)) : Value
  | vlist (xs : List Value) : Value
  | vtuple (xs : List Value) : Value
  | vset (xs : List Value) : Value

/-- `SENSITIVE_KEYS` from redact.py. -/
def sensitiveKeys : List K :=
  ["api_key", "apikey", "api-key",
   "secret", "secret_key", "secretkey",
   "password", "passwd", "pwd",
   "token", "access_token", "refresh_token", "auth_token",
   "private_key", "privatekey",
   "client_secret", "clientsecret",
   "bearer"].map String.data

/-- `key.lower() in SENSITIVE_KEYS` (ASCII lower-casing). -/
def isSensitiveKey (k : K) : Bool := sensitiveKeys.contains (k.map Char.toLower)

/-- The `"[MAX_DEPTH_EXCEEDED]"` marker. -/
def mdeChars : K := "[MAX_DEPTH_EXCEEDED]".data

/-- `safe(obj, depth, max_depth)` from redact.py, with recursion made
structural on a gas counter.  `safe` never descends once `depth > max_depth`,
so `max_depth + 1 - depth` bounds the remaining recursion depth; the gas-zero
branch coincides with the source's depth check (gas reaches 0 exactly when
`depth` exceeds `max_depth`).  Dict keys are unique in a Python dict, so
building the result dict by inserting each item once, in iteration order, is
an entry-wise map. -/
def safeGo : Nat → Nat → Nat → Value → Value
  | 0, _, _, _ => .vstr mdeChars
  | gas + 1, depth, maxDepth, v =>
    if maxDepth < depth then .vstr mdeChars
    else
      match v with
      | .vnull => .vnull
      | .vbool b => .vbool b
      | .vnum n => .vnum n
      | .vstr s => .vstr (redactStringL s)
      | .vdict kvs => .vdict (kvs.map (fun p =>
          if isSensitiveKey p.1 then (p.1, .vstr markerChars)
          else (p.1, safeGo gas (depth + 1) maxDepth p.2)))
      | .vlist xs => .vlist (xs.map (safeGo gas (depth + 1) maxDepth))
      | .vtuple xs => .vtuple (xs.map (safeGo gas (depth + 1) maxDepth))
      | .vset xs => .vset (xs.map (safeGo gas (depth + 1) maxDepth))

/-- `safe(obj, depth, max_depth)`: the gas is the bound on remaining depth. -/
def safeV (depth maxDepth : Nat) (v : Value) : Value :=
  safeGo (maxDepth + 1 - depth) depth maxDepth v

/-- The dict branch of `safe`: sensitive keys get the marker, other values
are sanitized one level deeper. -/
def safeEntries (depth maxDepth : Nat) (l : List (K × Value)) : List (K × Value) :=
  l.map (fun p =>
    if isSensitiveKey p.1 then (p.1, Value.vstr markerChars)
    else (p.1, safeV (depth + 1) maxDepth p.2))

/-- `sanitize(obj)` from redact.py: `safe(obj)` with the default depths. -/
def sanitizeV (v : Value) : Value := safeV 0 10 v

/-- Gas-successor unfolding of `safeGo` on each constructor. -/
theorem safeGo_null (gas depth maxDepth : Nat) :
    safeGo (gas + 1) depth maxDepth .vnull =
      if maxDepth < depth then .vstr mdeChars else .vnull := rfl

theorem safeGo_bool (gas depth maxDepth : Nat) (b : Bool) :
    safeGo (gas + 1) depth maxDepth (.vbool b) =
      if maxDepth < depth then .vstr mdeChars else .vbool b := rfl

theorem safeGo_num (gas depth maxDepth : Nat) (n : Int) :
    safeGo (gas + 1) depth maxDepth (.vnum n) =
      if maxDepth < depth then .vstr mdeChars else .vnum n := rfl

theorem safeGo_str (gas depth maxDepth : Nat) (s : K) :
    safeGo (gas + 1) depth maxDepth (.vstr s) =
      if maxDepth < depth then .vstr mdeChars else .vstr (redactStringL s) := rfl

theorem safeGo_dict (gas depth maxDepth : Nat) (kvs : List (K × Value)) :
    safeGo (gas + 1) depth maxDepth (.vdict kvs) =
      if maxDepth < depth then .vstr mdeChars
      else .vdict (kvs.map (fun p =>
        if isSensitiveKey p.1 then (p.1, .vstr markerChars)
        else (p.1, safeGo gas (depth + 1) maxDepth p.2))) := rfl

/-- Below the depth limit, `safe` of `None` is `None`. -/
theorem safeV_null {depth maxDepth : Nat} (hd : depth ≤ maxDepth) :
    safeV depth maxDepth .vnull = .vnull := by
  have h1 : maxDepth + 1 - depth = (maxDepth - depth) + 1 := by omega
  rw [safeV, h1, safeGo_null, if_neg (by omega)]

/-- Below the depth limit, `safe` of a boolean is itself. -/
theorem safeV_bool {depth maxDepth : Nat} (hd : depth ≤ maxDepth) (b : Bool) :
    safeV depth maxDepth (.vbool b) = .vbool b := by
  have h1 : maxDepth + 1 - depth = (maxDepth - depth) + 1 := by omega
  rw [safeV, h1, safeGo_bool, if_neg (by omega)]

/-- Below the depth limit, `safe` of a number is itself. -/
theorem safeV_num {depth maxDepth : Nat} (hd : depth ≤ maxDepth) (n : Int) :
    safeV depth maxDepth (.vnum n) = .vnum n := by
  have h1 : maxDepth + 1 - depth = (maxDepth - depth) + 1 := by omega
  rw [safeV, h1, safeGo_num, if_neg (by omega)]

/-- Below the depth limit, `safe` of a string is `redact_string` of it. -/
theorem safeV_str {depth maxDepth : Nat} (hd : depth ≤ maxDepth) (s : K) :
    safeV depth maxDepth (.vstr s) = .vstr (redactStringL s) := by
  have h1 : maxDepth + 1 - depth = (maxDepth - depth) + 1 := by omega
  rw [safeV, h1, safeGo_str, if_neg (by omega)]

/-- Below the depth limit, `safe` of a dict is the entry-wise transform
`safeEntries`. -/
theorem safeV_dict {depth maxDepth : Nat} (hd : depth ≤ maxDepth)
    (kvs : List (K × Value)) :
    safeV depth maxDepth (.vdict kvs) = .vdict (safeEntries depth maxDepth kvs) := by
  have h1 : maxDepth + 1 - depth = (maxDepth - depth) + 1 := by omega
  have h2 : maxDepth - depth = maxDepth + 1 - (depth + 1) := by omega
  rw [safeV, h1, safeGo_dict, if_neg (by omega), h2, safeEntries]
  simp only [safeV]

/-! ## Ordered dicts with Python insertion-order update semantics -/

variable {A : Type}

/-- `k in d` for an ordered association list (a Python dict). -/
def ahas (l : List (K × A)) (k : K) : Bool := l.any (fun p => p.1 == k)

/-- `d[k] = v`: updating an existing key keeps its position, a new key is
appended at the end (Python dict semantics).  Keys of a Python dict are
unique, so updating every matching entry coincides with updating the one. -/
def aset (l : List (K × A)) (k : K) (v : A) : List (K × A) :=
  if ahas l k then l.map (fun p => if p.1 == k then (k, v) else p)
  else l ++ [(k, v)]

/-- `d.get(k)` / `d[k]`. -/
def alookup (l : List (K × A)) (k : K) : Option A :=
  match l with
  | [] => none
  | (k2, v) :: rest => if k2 == k then some v else alookup rest k

/-- `d.pop(k, None)`: dict keys are unique, so removing every entry with the
key coincides with `pop`. -/
def adrop (l : List (K × A)) (k : K) : List (K × A) :=
  l.filter (fun p => !(p.1 == k))

/-- A record: one JSON object, as an ordered association list. -/
abbrev Record := List (K × Value)

/-- A dict literal `{a: x, ..., **m}`: insert the pairs left to right into an
empty dict, later occurrences of a key overwriting earlier ones in place. -/
def dlit (l : List (K × Value)) : Record := l.foldl (fun r p => aset r p.1 p.2) []

/-! ## The file sink (sinks/file_sink.py) -/

/-- Exceptions the embedded code raises or re-raises.  A `user` exception is
one raised by caller code (the session body or a wrapped callable), carrying
its type name and message, so that "the original error propagates unchanged"
is equality of `Exn` values. -/
inductive Exn where
  | user (ty msg : K) : Exn
  | runtimeErr (msg : K) : Exn
  | valueErr (msg : K) : Exn
deriving DecidableEq

/-- `str(e)` for an embedded exception: its message. -/
def exnStr : Exn → K
  | .user _ m => m
  | .runtimeErr m => m
  | .valueErr m => m

/-- `FileSink` state: `_handles` is the dict from run_id to open file handle
(modelled by the file's path, in insertion order), `files` is the disk: path
to list of written records.  Written records persist after close. -/
structure SinkSt where
  baseDir : K
  handles : List (K × K)
  files : List (K × List Record)

/-- The path `base_dir / f"trace_{run_id}_{timestamp}.jsonl"`. -/
def mkPath (baseDir runId ts : K) : K :=
  baseDir ++ "/".data ++ "trace_".data ++ runId ++ "_".data ++ ts ++ ".jsonl".data

/-- The metadata record `{"record_type": "metadata", "run_id": .., "timestamp": .., **metadata}`. -/
def mkMetaRec (runId ts : K) (metadata : Record) : Record :=
  dlit ([("record_type".data, .vstr "metadata".data),
         ("run_id".data, .vstr runId),
         ("timestamp".data, .vstr ts)] ++ metadata)

/-- `FileSink.open(run_id, metadata)`: create (truncate) the file, register
the handle, and write the metadata record as first line when `metadata` is
truthy (a non-empty dict).  `ts` is the open-time timestamp.  Returns the new
state and the path. -/
def sinkOpen (runId : K) (metadata : Record) (ts : K) (st : SinkSt) : SinkSt × K :=
  let path := mkPath st.baseDir runId ts
  let initial := if metadata.isEmpty then [] else [mkMetaRec runId ts metadata]
  (⟨st.baseDir, aset st.handles runId path, aset st.files path initial⟩, path)

/-- `FileSink.write(obj, run_id)`: resolve the run (first opened when
omitted), error when unresolvable, stamp a timestamp into the caller's object
when absent, append it to the file, flush.  Returns the new state and the
caller's object as it stands after the call (the dict is mutated in place by
the source). -/
def sinkWrite (obj : Record) (runId : Option K) (ts : K) (st : SinkSt) :
    Except Exn (SinkSt × Record) :=
  match (match runId with
         | none =>
             match st.handles.head? with
             | none => Except.error (Exn.valueErr "No active trace runs. Call open() first.".data)
             | some p => Except.ok p.1
         | some r => Except.ok r) with
  | .error e => .error e
  | .ok rid =>
    match alookup st.handles rid with
    | none => .error (.valueErr ("No active trace for run_id: ".data ++ rid))
    | some path =>
      let obj2 := if ahas obj "timestamp".data then obj
                  else aset obj "timestamp".data (.vstr ts)
      let old := (alookup st.files path).getD []
      .ok (⟨st.baseDir, st.handles, aset st.files path (old ++ [obj2])⟩, obj2)

/-- `FileSink.close(run_id)`: drop one handle, or all when `run_id` is
omitted; closing an unknown run is a no-op.  Files persist. -/
def sinkClose (runId : Option K) (st : SinkSt) : SinkSt :=
  match runId with
  | none => ⟨st.baseDir, [], st.files⟩
  | some r => ⟨st.baseDir, adrop st.handles r, st.files⟩

/-! ## The session engine (trace.py) -/

/-- `Trace` state: identity plus the active-session fields. -/
structure TraceSt where
  app : K
  env : K
  sink : SinkSt
  activeRunId : Option K
  spans : List Record

/-- The error message of `add_span` outside a session. -/
def noSessionMsg : K := "No active session. Use `with trace.session():`".data

/-- `safe(fields)` for a kwargs dict (depth 0, max depth 10). -/
def safeFieldsR (fields : Record) : Record := safeEntries 0 10 fields

/-- The span record built by `add_span`: the engine's five fields merged with
the sanitized caller fields, later keys overwriting earlier ones in place. -/
def mkSpanRec (spanId runId name ts : K) (fields : Record) : Record :=
  dlit ([("record_type".data, .vstr "span".data),
         ("span_id".data, .vstr spanId),
         ("run_id".data, .vstr runId),
         ("name".data, .vstr name),
         ("timestamp".data, .vstr ts)] ++ safeFieldsR fields)

/-- `Trace.add_span(name, **fields)`: usage error with no active session;
otherwise sanitize the fields, build the span record, write it to the sink
under the active run and append it to the in-memory span list.  `spanId` and
`ts` stand for the generated id and capture time, `writeTs` for the
timestamp `FileSink.write` would stamp (unused: span records always carry
one). -/
def addSpan (spanId ts writeTs : K) (name : K) (fields : Record) (st : TraceSt) :
    Except Exn TraceSt :=
  match st.activeRunId with
  | none => .error (.runtimeErr noSessionMsg)
  | some rid =>
    match sinkWrite (mkSpanRec spanId rid name ts fields) (some rid) writeTs st.sink with
    | .error e => .error e
    | .ok (sink2, span2) =>
        .ok ⟨st.app, st.env, sink2, st.activeRunId, st.spans ++ [span2]⟩

/-- The summary record written at session exit. -/
def mkSummaryRec (runId : K) (durationMs : Value) (spanCount : Nat) (ts : K) : Record :=
  dlit [("record_type".data, .vstr "summary".data),
        ("run_id".data, .vstr runId),
        ("duration_ms".data, durationMs),
        ("span_count".data, .vnum (spanCount : Int)),
        ("timestamp".data, .vstr ts)]

/-- The non-deterministic inputs of a session, fixed up front: the generated
run id, the open-time timestamp, per-span generated ids and timestamps, the
summary's timestamp and rounded duration, and the timestamps `write` would
stamp. -/
structure Gen where
  runId : K
  openTs : K
  spanId : Nat → K
  spanTs : Nat → K
  writeTs : Nat → K
  errSpanId : K
  errSpanTs : K
  sumTs : K
  sumWriteTs : K
  durationMs : Value

/-- One `add_span` call issued by the session body: a name and the kwargs. -/
abbrev SpanCall := K × Record

/-- The session body: issue the `add_span` calls in order, stopping at the
first failure (an exception inside the body). -/
def runBody (g : Gen) (i : Nat) (calls : List SpanCall) (st : TraceSt) :
    TraceSt × Option Exn :=
  match calls with
  | [] => (st, none)
  | (name, fields) :: rest =>
    match addSpan (g.spanId i) (g.spanTs i) (g.writeTs i) name fields st with
    | .ok st2 => runBody g (i + 1) rest st2
    | .error e => (st, some e)

/-- The `finally` block of `Trace.session`: write the summary, close the
sink, reset the in-memory state, then re-raise `pending` if any.  An
exception from the summary write itself propagates and skips the rest. -/
def sessionEnd (g : Gen) (rid : K) (pending : Option Exn) (st : TraceSt) :
    Except Exn Unit × TraceSt :=
  let summary := mkSummaryRec rid g.durationMs st.spans.length g.sumTs
  match sinkWrite summary (some rid) g.sumWriteTs st.sink with
  | .error e => (.error e, st)
  | .ok (sink2, _) =>
    let sink3 := sinkClose (some rid) sink2
    let st2 : TraceSt := ⟨st.app, st.env, sink3, none, []⟩
    ((match pending with
      | some e => .error e
      | none => .ok ()), st2)

/-- `with trace.session(metadata): body` where the body issues `calls` and
then, when `err = some (ty, msg)`, raises.  Returns the outcome the caller
observes and the final state.  On a body exception, one `session.error` span
is recorded before the `finally` block runs; an exception raised while
recording it (impossible here, but modelled) propagates instead. -/
def runSession (g : Gen) (metadata : Record) (calls : List SpanCall)
    (err : Option (K × K)) (st0 : TraceSt) : Except Exn Unit × TraceSt :=
  let rid := g.runId
  let st1 : TraceSt := ⟨st0.app, st0.env, st0.sink, some rid, []⟩
  let sessionMeta := dlit ([("app".data, .vstr st0.app), ("env".data, .vstr st0.env)]
                            ++ metadata)
  let (sink1, _path) := sinkOpen rid sessionMeta g.openTs st1.sink
  let st2 : TraceSt := ⟨st1.app, st1.env, sink1, st1.activeRunId, st1.spans⟩
  let (st3, bodyExn) := runBody g 0 calls st2
  match bodyExn with
  | some e => sessionEnd g rid (some e) st3
  | none =>
    match err with
    | none => sessionEnd g rid none st3
    | some (ty, msg) =>
      let e : Exn := .user ty msg
      let errFields : Record := [("error".data, .vstr (exnStr e)),
                                 ("error_type".data, .vstr ty)]
      match addSpan g.errSpanId g.errSpanTs (g.writeTs calls.length)
              "session.error".data errFields st3 with
      | .ok st4 => sessionEnd g rid (some e) st4
      | .error e2 => sessionEnd g rid (some e2) st3

/-- The timing decorator `Trace.span(name)` applied to a callable whose
outcome is `call`, invoked once: time the call, and in the `finally` block
record one span with the wrapped function's name, rounded duration, status
flag and error message; an exception from `add_span` itself (e.g. no active
session) replaces the in-flight outcome, since it is raised in `finally`. -/
def spanWrapper (spanId ts writeTs : K) (name fname : K) (durationMs : Value)
    (call : Except Exn Value) (st : TraceSt) : Except Exn Value × TraceSt :=
  let failed := match call with
    | .ok _ => false
    | .error _ => true
  let errVal : Value := match call with
    | .ok _ => .vnull
    | .error e => .vstr (exnStr e)
  let fields : Record :=
    [("function".data, .vstr fname),
     ("duration_ms".data, durationMs),
     ("status".data, .vstr (if failed then "error".data else "ok".data)),
     ("error".data, errVal)]
  match addSpan spanId ts writeTs name fields st with
  | .ok st2 => (call, st2)
  | .error e2 => (.error e2, st)

/-! ## Occurrence of a pattern inside a string, and sk- tokens -/

/-- `p` occurs as a contiguous substring of `s`. -/
def occursIn (p s : List Char) : Prop := ∃ i, p <+: s.drop i

/-- `t` is an sk- secret token: the (case-insensitive) prefix `sk-` followed
by at least 20 characters of the api-key pattern's tail class `[\w\-]`. -/
def isTok (t : List Char) : Prop :=
  ∃ c1 c2 b, t = c1 :: c2 :: '-' :: b ∧ (c1 = 's' ∨ c1 = 'S') ∧ (c2 = 'k' ∨ c2 = 'K') ∧
    20 ≤ b.length ∧ ∀ c ∈ b, isWordDash c = true

/-- No sk- token occurs anywhere in `s`. -/
def noTok (s : List Char) : Prop := ∀ t, isTok t → ¬ occursIn t s

theorem occursIn_cons_iff {t : List Char} {c : Char} {l : List Char} :
    occursIn t (c :: l) ↔ t <+: (c :: l) ∨ occursIn t l := by
  constructor
  · rintro ⟨i, hi⟩
    cases i with
    | zero => exact Or.inl hi
    | succ j => exact Or.inr ⟨j, hi⟩
  · rintro (h | ⟨j, hj⟩)
    · exact ⟨0, h⟩
    · exact ⟨j + 1, hj⟩

theorem occursIn_of_occursIn_drop {t s : List Char} {n : Nat}
    (h : occursIn t (s.drop n)) : occursIn t s := by
  obtain ⟨i, hi⟩ := h
  exact ⟨n + i, by rwa [List.drop_drop] at hi ⟩

theorem occursIn_append_right {t x : List Char} (m : List Char)
    (h : occursIn t x) : occursIn t (m ++ x) := by
  obtain ⟨i, hi⟩ := h
  refine ⟨m.length + i, ?_⟩
  rwa [List.drop_append]

theorem noTok_drop {s : List Char} {n : Nat} (h : noTok s) : noTok (s.drop n) :=
  fun t ht hocc => h t ht (occursIn_of_occursIn_drop hocc)

theorem noTok_of_cons {c : Char} {l : List Char} (h : noTok (c :: l)) : noTok l :=
  fun t ht hocc => h t ht (occursIn_cons_iff.mpr (Or.inr hocc))

theorem occursIn_append_elim {t m x : List Char} (h : occursIn t (m ++ x)) :
    (∃ i, i < m.length ∧ t <+: (m ++ x).drop i) ∨ occursIn t x := by
  obtain ⟨i, hi⟩ := h
  by_cases hlt : i < m.length
  · exact Or.inl ⟨i, hlt, hi⟩
  · refine Or.inr ⟨i - m.length, ?_⟩
    have hi2 : m.length + (i - m.length) = i := by omega
    rw [← hi2, List.drop_append] at hi
    exact hi

/-- The head of a non-empty prefix of `s.drop i` is the `i`-th character of `s`. -/
theorem head_of_prefix_drop {a : Char} {t s : List Char} {i : Nat}
    (hp : a :: t <+: s.drop i) : s.get? i = some a := by
  obtain ⟨r, hr⟩ := hp
  have h1 : (s.drop i).get? 0 = some a := by rw [← hr]; rfl
  rwa [List.get?_drop, Nat.add_zero] at h1

theorem marker_chars_not_sk : ∀ a ∈ markerChars, ¬(a = 's' ∨ a = 'S') := by decide

theorem marker_head : markerChars = '[' :: "REDACTED]".data := by decide

/-- An sk- token never starts inside an occurrence of the marker. -/
theorem tok_not_in_marker_zone {t m x : List Char} {i : Nat} (hm : m = markerChars)
    (ht : isTok t) (hi : i < m.length) (hp : t <+: (m ++ x).drop i) : False := by
  obtain ⟨c1, c2, b, rfl, h1, h2, _, _⟩ := ht
  have hget := head_of_prefix_drop hp
  rw [List.get?_append hi] at hget
  have hmem : c1 ∈ m := List.get?_mem hget
  rw [hm] at hmem
  exact marker_chars_not_sk c1 hmem h1


/-! ## Unfolding equations for `reSubAux` -/

theorem reSubAux_nil (fuel : Nat) (re : RE) (p : Option Char) :
    reSubAux fuel re p [] = [] := by
  cases fuel <;> rfl

theorem reSubAux_cons_pos {fuel : Nat} {re : RE} {p : Option Char} {c : Char}
    {rest : List Char} {n : Nat} (h : matchLen re p (c :: rest) = some (n + 1)) :
    reSubAux (fuel + 1) re p (c :: rest) =
      markerChars ++
        reSubAux fuel re (charAfter p (c :: rest) (n + 1)) ((c :: rest).drop (n + 1)) := by
  rw [reSubAux, h]

theorem reSubAux_cons_none {fuel : Nat} {re : RE} {p : Option Char} {c : Char}
    {rest : List Char} (h : matchLen re p (c :: rest) = none) :
    reSubAux (fuel + 1) re p (c :: rest) = c :: reSubAux fuel re (some c) rest := by
  rw [reSubAux, h]

theorem reSubAux_cons_zero {fuel : Nat} {re : RE} {p : Option Char} {c : Char}
    {rest : List Char} (h : matchLen re p (c :: rest) = some 0) :
    reSubAux (fuel + 1) re p (c :: rest) = c :: reSubAux fuel re (some c) rest := by
  rw [reSubAux, h]

/-- A prefix of the output of `reSubAux` that contains no `'['` (hence cannot
touch an emitted marker) is a prefix of the input. -/
theorem prefix_reflect (re : RE) :
    ∀ q : List Char, q ≠ [] → '[' ∉ q →
      ∀ fuel p u, q <+: reSubAux fuel re p u → q <+: u := by
  intro q
  induction q with
  | nil => intro h; exact absurd rfl h
  | cons c q2 ih =>
    intro _ hbr fuel p u hpre
    match u with
    | [] =>
      rw [reSubAux_nil] at hpre
      exact absurd (List.prefix_nil.mp hpre) (by simp)
    | d :: rest =>
      match fuel with
      | 0 => exact hpre
      | fuel + 1 =>
        cases hm : matchLen re p (d :: rest) with
        | none =>
          rw [reSubAux_cons_none hm] at hpre
          obtain ⟨hcd, htail⟩ := List.cons_prefix_cons.mp hpre
          subst hcd
          by_cases hq2 : q2 = []
          · subst hq2
            exact List.cons_prefix_cons.mpr ⟨rfl, List.nil_prefix⟩
          · have := ih hq2 (fun hc => hbr (List.mem_cons_of_mem _ hc)) fuel (some c) rest htail
            exact List.cons_prefix_cons.mpr ⟨rfl, this⟩
        | some k =>
          cases k with
          | zero =>
            rw [reSubAux_cons_zero hm] at hpre
            obtain ⟨hcd, htail⟩ := List.cons_prefix_cons.mp hpre
            subst hcd
            by_cases hq2 : q2 = []
            · subst hq2
              exact List.cons_prefix_cons.mpr ⟨rfl, List.nil_prefix⟩
            · have := ih hq2 (fun hc => hbr (List.mem_cons_of_mem _ hc)) fuel (some c) rest htail
              exact List.cons_prefix_cons.mpr ⟨rfl, this⟩
          | succ n =>
            rw [reSubAux_cons_pos hm, marker_head] at hpre
            have := (List.cons_prefix_cons.mp hpre).1
            exact absurd this.symm (by exact fun h => hbr (h ▸ List.mem_cons_self c q2))

theorem noTok_nil : noTok [] := by
  rintro t ⟨c1, c2, b, rfl, _⟩ ⟨i, hi⟩
  rw [List.drop_nil] at hi
  exact absurd (List.prefix_nil.mp hi) (by simp)

/-- An sk- token contains no `'['`. -/
theorem tok_no_bracket {c2 : Char} {b : List Char}
    (h2 : c2 = 'k' ∨ c2 = 'K') (hwd : ∀ c ∈ b, isWordDash c = true) :
    '[' ∉ c2 :: '-' :: b := by
  intro hmem
  rcases List.mem_cons.mp hmem with h | h
  · rcases h2 with rfl | rfl <;> simp at h
  · rcases List.mem_cons.mp h with h | h
    · exact absurd h (by decide)
    · exact absurd (hwd _ h) (by decide)

/-- Copy-branch case of noTok preservation: a token starting at the copied
character would reflect back into the input. -/
theorem noTok_cons_copy {fuel : Nat} {re : RE} {p2 : Option Char} {c : Char}
    {rest : List Char}
    (hs : noTok (c :: rest)) (hrec : noTok (reSubAux fuel re p2 rest)) :
    noTok (c :: reSubAux fuel re p2 rest) := by
  intro t ht hocc
  rcases occursIn_cons_iff.mp hocc with hpre | hocc2
  · obtain ⟨c1, c2, b, rfl, h1, h2, hlen, hwd⟩ := ht
    obtain ⟨hc, htail⟩ := List.cons_prefix_cons.mp hpre
    have hq : c2 :: '-' :: b <+: rest :=
      prefix_reflect re _ (by simp) (tok_no_bracket h2 hwd) fuel p2 rest htail
    subst hc
    exact hs _ ⟨c1, c2, b, rfl, h1, h2, hlen, hwd⟩
      ⟨0, List.cons_prefix_cons.mpr ⟨rfl, hq⟩⟩
  · exact hrec t ht hocc2

/-- Marker-branch case of noTok preservation. -/
theorem noTok_marker_case {x : List Char} (hrec : noTok x) :
    noTok (markerChars ++ x) := by
  intro t ht hocc
  rcases occursIn_append_elim hocc with ⟨i, hi, hp⟩ | h2
  · exact tok_not_in_marker_zone rfl ht hi hp
  · exact hrec t ht h2

/-- Substituting any of the source's patterns never creates an sk- token. -/
theorem noTok_reSubAux (re : RE) :
    ∀ fuel s p, s.length ≤ fuel → noTok s → noTok (reSubAux fuel re p s) := by
  intro fuel
  induction fuel with
  | zero =>
    intro s p hlen _
    have hs : s = [] := List.eq_nil_of_length_eq_zero (Nat.le_zero.mp hlen)
    subst hs
    rw [reSubAux_nil]
    exact noTok_nil
  | succ fuel ih =>
    intro s p hlen hs
    match s with
    | [] => rw [reSubAux_nil]; exact noTok_nil
    | c :: rest =>
      have hr : rest.length ≤ fuel := by simpa using hlen
      cases hm : matchLen re p (c :: rest) with
      | none =>
        rw [reSubAux_cons_none hm]
        exact noTok_cons_copy hs (ih rest (some c) hr (noTok_of_cons hs))
      | some k =>
        cases k with
        | zero =>
          rw [reSubAux_cons_zero hm]
          exact noTok_cons_copy hs (ih rest (some c) hr (noTok_of_cons hs))
        | succ m =>
          rw [reSubAux_cons_pos hm]
          apply noTok_marker_case
          apply ih _ _ ?_ (noTok_drop hs)
          simp only [List.length_drop, List.length_cons]
          omega

/-- A prefix of the input survives `reSubAux` verbatim unless a marker was
emitted somewhere in its region. -/
theorem prefix_or_marker (re : RE) :
    ∀ q fuel p u, q <+: u →
      q <+: reSubAux fuel re p u ∨ occursIn markerChars (reSubAux fuel re p u) := by
  intro q
  induction q with
  | nil => intro fuel p u _; exact Or.inl List.nil_prefix
  | cons c q2 ih =>
    intro fuel p u hpre
    match u with
    | [] => exact absurd (List.prefix_nil.mp hpre) (by simp)
    | d :: rest =>
      obtain ⟨hcd, htail⟩ := List.cons_prefix_cons.mp hpre
      subst hcd
      match fuel with
      | 0 => exact Or.inl (List.cons_prefix_cons.mpr ⟨rfl, htail⟩)
      | fuel + 1 =>
        cases hm : matchLen re p (c :: rest) with
        | none =>
          rw [reSubAux_cons_none hm]
          rcases ih fuel (some c) rest htail with h | h
          · exact Or.inl (List.cons_prefix_cons.mpr ⟨rfl, h⟩)
          · exact Or.inr (occursIn_cons_iff.mpr (Or.inr h))
        | some k =>
          cases k with
          | zero =>
            rw [reSubAux_cons_zero hm]
            rcases ih fuel (some c) rest htail with h | h
            · exact Or.inl (List.cons_prefix_cons.mpr ⟨rfl, h⟩)
            · exact Or.inr (occursIn_cons_iff.mpr (Or.inr h))
          | succ m =>
            rw [reSubAux_cons_pos hm]
            exact Or.inr ⟨0, List.prefix_append _ _⟩

/-- Once the marker occurs, every later substitution keeps it occurring. -/
theorem marker_reSubAux (re : RE) :
    ∀ fuel s p, occursIn markerChars s →
      occursIn markerChars (reSubAux fuel re p s) := by
  intro fuel
  induction fuel with
  | zero =>
    intro s p hocc
    match s with
    | [] => rw [reSubAux_nil]; exact hocc
    | c :: rest => exact hocc
  | succ fuel ih =>
    intro s p hocc
    match s with
    | [] => rw [reSubAux_nil]; exact hocc
    | c :: rest =>
      rcases occursIn_cons_iff.mp hocc with hpre | hocc2
      · rcases prefix_or_marker re markerChars (fuel + 1) p (c :: rest) hpre with h | h
        · exact ⟨0, h⟩
        · exact h
      · cases hm : matchLen re p (c :: rest) with
        | none =>
          rw [reSubAux_cons_none hm]
          exact occursIn_cons_iff.mpr (Or.inr (ih rest (some c) hocc2))
        | some k =>
          cases k with
          | zero =>
            rw [reSubAux_cons_zero hm]
            exact occursIn_cons_iff.mpr (Or.inr (ih rest (some c) hocc2))
          | succ m =>
            rw [reSubAux_cons_pos hm]
            exact ⟨0, List.prefix_append _ _⟩

/-! ## Completeness of the api-key pattern on sk- tokens -/

theorem countLeading_append_ge {f : Char → Bool} {b : List Char} (r : List Char)
    (hb : ∀ c ∈ b, f c = true) : b.length ≤ countLeading f (b ++ r) := by
  induction b with
  | nil => simp
  | cons c b2 ih =>
    have hc : f c = true := hb c (List.mem_cons_self _ _)
    simp only [List.cons_append, countLeading, hc, if_true, List.length_cons,
      List.append_eq]
    have := ih (fun x hx => hb x (List.mem_cons_of_mem _ hx))
    simp only [List.append_eq] at this
    omega

theorem repLens_head {f : Char → Bool} {s : List Char} {lo : Nat}
    (h : lo ≤ countLeading f s) :
    (repLens f lo none s).head? = some (countLeading f s) := by
  unfold repLens
  simp only [if_pos h]
  have h1 : countLeading f s + 1 - lo = (countLeading f s - lo) + 1 := by omega
  rw [h1, List.range_succ_eq_map]
  simp

theorem reLens_seq (a b : RE) (p : Option Char) (s : List Char) :
    reLens (.seq a b) p s =
      (reLens a p s).flatMap (fun n =>
        (reLens b (charAfter p s n) (s.drop n)).map (fun m => n + m)) := rfl

theorem reLens_alt (a b : RE) (p : Option Char) (s : List Char) :
    reLens (.alt a b) p s = reLens a p s ++ reLens b p s := rfl

theorem reLens_eps (p : Option Char) (s : List Char) : reLens .eps p s = [0] := rfl

theorem reLens_repC (lo : Nat) (hi : Option Nat) (f : Char → Bool) (p : Option Char)
    (s : List Char) : reLens (.repC lo hi f) p s = repLens f lo hi s := rfl

theorem reLens_cls_cons (f : Char → Bool) (p : Option Char) (c : Char) (rest : List Char) :
    reLens (.cls f) p (c :: rest) = if f c then [1] else [] := rfl

/-- The api-key pattern on a string beginning `sk-` (any case) followed by a
tail-class run: the `sk-` alternative is tried first, then the greedy tail. -/
theorem reLens_apiKey_sk {p : Option Char} {c1 c2 : Char} {w : List Char}
    (h1 : c1 = 's' ∨ c1 = 'S') (h2 : c2 = 'k' ∨ c2 = 'K') :
    reLens apiKeyRE p (c1 :: c2 :: '-' :: w) =
      (repLens isWordDash 20 none w).map (fun m => 3 + m) := by
  rcases h1 with rfl | rfl <;> rcases h2 with rfl | rfl <;>
    simp [apiKeyRE, strCI, catR, chrCI, reLens_seq, reLens_alt, reLens_eps,
      reLens_repC, reLens_cls_cons, charAfter, List.flatMap]

/-- On a string that starts with an sk- token, the api-key pattern produces a
match of positive length, so `re.sub` fires there. -/
theorem apiKey_matchLen {p : Option Char} {c1 c2 : Char} {b r : List Char}
    (h1 : c1 = 's' ∨ c1 = 'S') (h2 : c2 = 'k' ∨ c2 = 'K')
    (hb : ∀ c ∈ b, isWordDash c = true) (hn : 20 ≤ b.length) :
    ∃ m, matchLen apiKeyRE p (c1 :: c2 :: '-' :: (b ++ r)) = some (m + 1) := by
  have hrun : 20 ≤ countLeading isWordDash (b ++ r) :=
    le_trans hn (countLeading_append_ge r hb)
  refine ⟨countLeading isWordDash (b ++ r) + 2, ?_⟩
  rw [matchLen, reLens_apiKey_sk h1 h2, List.head?_map, repLens_head hrun]
  have h3 : 3 + countLeading isWordDash (b ++ r) =
      countLeading isWordDash (b ++ r) + 2 + 1 := by omega
  simp [h3]

/-- A token prefix of the input would make the api-key pattern match there. -/
theorem tok_prefix_matchLen {t s : List Char} {p : Option Char}
    (ht : isTok t) (hpre : t <+: s) :
    ∃ m, matchLen apiKeyRE p s = some (m + 1) := by
  obtain ⟨c1, c2, b, rfl, h1, h2, hlen, hwd⟩ := ht
  obtain ⟨r, hr⟩ := hpre
  rw [← hr]
  simp only [List.cons_append]
  exact apiKey_matchLen h1 h2 hwd hlen

/-- After the api-key substitution no sk- token occurs: every occurrence in
the input is consumed, and substitutions never create one. -/
theorem noTok_after_apiKey :
    ∀ fuel s p, s.length ≤ fuel → noTok (reSubAux fuel apiKeyRE p s) := by
  intro fuel
  induction fuel with
  | zero =>
    intro s p hlen
    have hs : s = [] := List.eq_nil_of_length_eq_zero (Nat.le_zero.mp hlen)
    subst hs
    rw [reSubAux_nil]
    exact noTok_nil
  | succ fuel ih =>
    intro s p hlen
    match s with
    | [] => rw [reSubAux_nil]; exact noTok_nil
    | c :: rest =>
      have hr : rest.length ≤ fuel := by simpa using hlen
      cases hm : matchLen apiKeyRE p (c :: rest) with
      | none =>
        rw [reSubAux_cons_none hm]
        intro t ht hocc
        rcases occursIn_cons_iff.mp hocc with hpre | hocc2
        · obtain ⟨c1, c2, b, ht2, h1, h2, hlen2, hwd⟩ := ht
          subst ht2
          obtain ⟨hc, htail⟩ := List.cons_prefix_cons.mp hpre
          have hq : c2 :: '-' :: b <+: rest :=
            prefix_reflect apiKeyRE _ (by simp) (tok_no_bracket h2 hwd)
              fuel (some c) rest htail
          have hmat := tok_prefix_matchLen (p := p)
            ⟨c1, c2, b, rfl, h1, h2, hlen2, hwd⟩
            (by subst hc; exact List.cons_prefix_cons.mpr ⟨rfl, hq⟩)
          obtain ⟨m, hmat⟩ := hmat
          rw [hc, hm] at hmat
          exact Option.noConfusion hmat
        · exact ih rest (some c) hr t ht hocc2
      | some k =>
        cases k with
        | zero =>
          rw [reSubAux_cons_zero hm]
          intro t ht hocc
          rcases occursIn_cons_iff.mp hocc with hpre | hocc2
          · obtain ⟨c1, c2, b, ht2, h1, h2, hlen2, hwd⟩ := ht
            subst ht2
            obtain ⟨hc, htail⟩ := List.cons_prefix_cons.mp hpre
            have hq : c2 :: '-' :: b <+: rest :=
              prefix_reflect apiKeyRE _ (by simp) (tok_no_bracket h2 hwd)
                fuel (some c) rest htail
            have hmat := tok_prefix_matchLen (p := p)
              ⟨c1, c2, b, rfl, h1, h2, hlen2, hwd⟩
              (by subst hc; exact List.cons_prefix_cons.mpr ⟨rfl, hq⟩)
            obtain ⟨m, hmat⟩ := hmat
            rw [hc, hm] at hmat
            exact absurd (Option.some.inj hmat) (by omega)
          · exact ih rest (some c) hr t ht hocc2
        | succ m =>
          rw [reSubAux_cons_pos hm]
          apply noTok_marker_case
          apply ih
          simp only [List.length_drop, List.length_cons]
          omega

/-- The api-key substitution leaves a marker wherever the input contained an
sk- token. -/
theorem marker_after_apiKey :
    ∀ fuel s p, s.length ≤ fuel → (∃ t, isTok t ∧ occursIn t s) →
      occursIn markerChars (reSubAux fuel apiKeyRE p s) := by
  intro fuel
  induction fuel with
  | zero =>
    intro s p hlen ht
    have hs : s = [] := List.eq_nil_of_length_eq_zero (Nat.le_zero.mp hlen)
    subst hs
    obtain ⟨t, ⟨c1, c2, b, rfl, _⟩, i, hi⟩ := ht
    rw [List.drop_nil] at hi
    exact absurd (List.prefix_nil.mp hi) (by simp)
  | succ fuel ih =>
    intro s p hlen ht
    match s with
    | [] =>
      obtain ⟨t, ⟨c1, c2, b, rfl, _⟩, i, hi⟩ := ht
      rw [List.drop_nil] at hi
      exact absurd (List.prefix_nil.mp hi) (by simp)
    | c :: rest =>
      have hr : rest.length ≤ fuel := by simpa using hlen
      obtain ⟨t, htok, hocc⟩ := ht
      cases hm : matchLen apiKeyRE p (c :: rest) with
      | none =>
        rw [reSubAux_cons_none hm]
        rcases occursIn_cons_iff.mp hocc with hpre | hocc2
        · obtain ⟨m, hmat⟩ := tok_prefix_matchLen (p := p) htok hpre
          rw [hm] at hmat
          exact Option.noConfusion hmat
        · exact occursIn_cons_iff.mpr (Or.inr (ih rest (some c) hr ⟨t, htok, hocc2⟩))
      | some k =>
        cases k with
        | zero =>
          rw [reSubAux_cons_zero hm]
          rcases occursIn_cons_iff.mp hocc with hpre | hocc2
          · obtain ⟨m, hmat⟩ := tok_prefix_matchLen (p := p) htok hpre
            rw [hm] at hmat
            exact absurd (Option.some.inj hmat) (by omega)
          · exact occursIn_cons_iff.mpr (Or.inr (ih rest (some c) hr ⟨t, htok, hocc2⟩))
        | succ m =>
          rw [reSubAux_cons_pos hm]
          exact ⟨0, List.prefix_append _ _⟩

/-- The two redaction invariants are preserved by the remaining patterns. -/
theorem inv_foldl_reSub (l : List RE) :
    ∀ t, noTok t → occursIn markerChars t →
      noTok (l.foldl (fun x re => reSub re x) t) ∧
        occursIn markerChars (l.foldl (fun x re => reSub re x) t) := by
  induction l with
  | nil => intro t h1 h2; exact ⟨h1, h2⟩
  | cons re l ih =>
    intro t h1 h2
    simp only [List.foldl_cons]
    exact ih (reSub re t)
      (noTok_reSubAux re t.length t none (le_refl _) h1)
      (marker_reSubAux re t.length t none h2)

/-- `redact_string` on a string containing an sk- token: no sk- token occurs
in the output and the marker does. -/
theorem redactStringL_sk {a b c : List Char}
    (hb : ∀ ch ∈ b, isWordDash ch = true) (hn : 20 ≤ b.length) :
    ¬ occursIn ('s' :: 'k' :: '-' :: b)
        (redactStringL (a ++ ('s' :: 'k' :: '-' :: b) ++ c)) ∧
      occursIn markerChars (redactStringL (a ++ ('s' :: 'k' :: '-' :: b) ++ c)) := by
  set s := a ++ ('s' :: 'k' :: '-' :: b) ++ c with hs
  have htok : isTok ('s' :: 'k' :: '-' :: b) :=
    ⟨'s', 'k', b, rfl, Or.inl rfl, Or.inl rfl, hn, hb⟩
  have hoccs : occursIn ('s' :: 'k' :: '-' :: b) s := by
    refine ⟨a.length, ?_⟩
    rw [hs, List.append_assoc, List.drop_left]
    exact ⟨c, by simp⟩
  have hstep : redactStringL s =
      [tokenRE, passwordRE, emailRE, ssnRE, creditCardRE, phoneRE].foldl
        (fun x re => reSub re x) (reSub apiKeyRE s) := by
    simp [redactStringL, patternOrder]
  have h1 : noTok (reSub apiKeyRE s) :=
    noTok_after_apiKey s.length s none (le_refl _)
  have h2 : occursIn markerChars (reSub apiKeyRE s) :=
    marker_after_apiKey s.length s none (le_refl _) ⟨_, htok, hoccs⟩
  have hinv := inv_foldl_reSub [tokenRE, passwordRE, emailRE, ssnRE, creditCardRE, phoneRE]
    (reSub apiKeyRE s) h1 h2
  rw [hstep]
  exact ⟨fun hocc => hinv.1 _ htok hocc, hinv.2⟩

/-! ## Association-list lemmas for the sink and record dicts -/

theorem alookup_cons {A : Type} (a : K) (b : A) (rest : List (K × A)) (k : K) :
    alookup ((a, b) :: rest) k = if a == k then some b else alookup rest k := rfl

theorem ahas_cons {A : Type} (a : K) (b : A) (rest : List (K × A)) (k : K) :
    ahas ((a, b) :: rest) k = ((a == k) || ahas rest k) := rfl

theorem ahas_append {A : Type} (l1 l2 : List (K × A)) (k : K) :
    ahas (l1 ++ l2) k = (ahas l1 k || ahas l2 k) := by
  simp only [ahas, List.any_append]

theorem alookup_map_set {A : Type} {l : List (K × A)} {k : K} (v : A)
    (h : ahas l k = true) :
    alookup (l.map (fun p => if p.1 == k then (k, v) else p)) k = some v := by
  induction l with
  | nil => exact absurd h (by simp [ahas])
  | cons p rest ih =>
    obtain ⟨k2, w⟩ := p
    by_cases h2 : k2 = k
    · subst h2
      rw [List.map_cons]
      have hhead : (if ((k2, w).1 == k2) = true then (k2, v) else (k2, w)) = (k2, v) := by
        simp
      rw [hhead, alookup_cons, if_pos (by simp)]
    · have hbne : (k2 == k) = false := by simp [h2]
      have h3 : ahas rest k = true := by
        rw [ahas_cons, hbne, Bool.false_or] at h
        exact h
      rw [List.map_cons]
      have hhead : (if ((k2, w).1 == k) = true then (k, v) else (k2, w)) = (k2, w) := by
        simp [hbne]
      rw [hhead, alookup_cons, if_neg (by simp [h2])]
      exact ih h3

theorem alookup_append_self {A : Type} (l : List (K × A)) (k : K) (v : A)
    (h : ahas l k = false) :
    alookup (l ++ [(k, v)]) k = some v := by
  induction l with
  | nil => simp [alookup_cons]
  | cons p rest ih =>
    obtain ⟨k2, w⟩ := p
    rw [ahas_cons, Bool.or_eq_false_iff] at h
    rw [List.cons_append, alookup_cons, if_neg (by simp [h.1])]
    exact ih h.2

theorem alookup_aset_self {A : Type} (l : List (K × A)) (k : K) (v : A) :
    alookup (aset l k v) k = some v := by
  by_cases hc : ahas l k
  · rw [aset, if_pos hc]
    exact alookup_map_set v hc
  · rw [aset, if_neg hc]
    exact alookup_append_self l k v (by simpa using hc)

theorem alookup_adrop {A : Type} (l : List (K × A)) (k : K) :
    alookup (adrop l k) k = none := by
  induction l with
  | nil => rfl
  | cons p rest ih =>
    obtain ⟨k2, w⟩ := p
    by_cases h2 : k2 = k
    · subst h2
      have he : adrop ((k2, w) :: rest) k2 = adrop rest k2 := by
        rw [adrop, adrop, List.filter_cons]
        simp
      rw [he]
      exact ih
    · have he : adrop ((k2, w) :: rest) k = (k2, w) :: adrop rest k := by
        rw [adrop, adrop, List.filter_cons]
        simp [h2]
      rw [he, alookup_cons, if_neg (by simp [h2])]
      exact ih

theorem ahas_map_set {A : Type} {l : List (K × A)} {k : K} (k2 : K) (v : A)
    (h : ahas l k = true) :
    ahas (l.map (fun p => if p.1 == k2 then (k2, v) else p)) k = true := by
  induction l with
  | nil => exact absurd h (by simp [ahas])
  | cons p rest ih =>
    obtain ⟨k3, w⟩ := p
    rw [ahas_cons, Bool.or_eq_true] at h
    rw [List.map_cons]
    rcases h with h | h
    · by_cases h4 : k3 = k2
      · have hhead : (if ((k3, w).1 == k2) = true then (k2, v) else (k3, w)) = (k2, v) := by
          simp [h4]
        rw [hhead, ahas_cons]
        have hk : (k2 == k) = true := by
          have e3 : k3 = k := by simpa using h
          simp [← h4, e3]
        rw [hk, Bool.true_or]
      · have hhead : (if ((k3, w).1 == k2) = true then (k2, v) else (k3, w)) = (k3, w) := by
          simp [h4]
        rw [hhead, ahas_cons, h, Bool.true_or]
    · have h6 := ih h
      by_cases h4 : k3 = k2
      · have hhead : (if ((k3, w).1 == k2) = true then (k2, v) else (k3, w)) = (k2, v) := by
          simp [h4]
        rw [hhead, ahas_cons, h6, Bool.or_true]
      · have hhead : (if ((k3, w).1 == k2) = true then (k2, v) else (k3, w)) = (k3, w) := by
          simp [h4]
        rw [hhead, ahas_cons, h6, Bool.or_true]

theorem ahas_aset_mono {A : Type} {l : List (K × A)} {k : K} (k2 : K) (v : A)
    (h : ahas l k = true) : ahas (aset l k2 v) k = true := by
  by_cases hc : ahas l k2
  · rw [aset, if_pos hc]
    exact ahas_map_set k2 v h
  · rw [aset, if_neg hc, ahas_append, h, Bool.true_or]

theorem ahas_foldl_aset {A : Type} (l2 : List (K × A)) :
    ∀ r : List (K × A), ∀ k : K, ahas r k = true →
      ahas (l2.foldl (fun r p => aset r p.1 p.2) r) k = true := by
  induction l2 with
  | nil => intro r k h; simpa using h
  | cons p rest ih =>
    intro r k h
    simp only [List.foldl_cons]
    exact ih _ _ (ahas_aset_mono p.1 p.2 h)

/-- Every span record carries a timestamp (the engine stamps one before the
caller fields are merged in, and merging keeps the key). -/
theorem mkSpanRec_ts (spanId rid name ts : K) (fields : Record) :
    ahas (mkSpanRec spanId rid name ts fields) "timestamp".data = true := by
  rw [mkSpanRec, dlit, List.foldl_append]
  exact ahas_foldl_aset _ _ _ rfl

/-- The summary record carries a timestamp. -/
theorem mkSummaryRec_ts (runId : K) (durationMs : Value) (spanCount : Nat) (ts : K) :
    ahas (mkSummaryRec runId durationMs spanCount ts) "timestamp".data = true := rfl

/-! ## Step lemmas for the sink and the session engine -/

theorem aset_length_ge {A : Type} (r : List (K × A)) (k : K) (v : A) :
    r.length ≤ (aset r k v).length := by
  rw [aset]
  split
  · simp
  · simp

theorem foldl_aset_length_ge {A : Type} (l : List (K × A)) :
    ∀ r : List (K × A), r.length ≤ (l.foldl (fun r p => aset r p.1 p.2) r).length := by
  induction l with
  | nil => intro r; simp
  | cons p rest ih =>
    intro r
    simp only [List.foldl_cons]
    exact le_trans (aset_length_ge r p.1 p.2) (ih _)

/-- A dict literal with at least one pair is truthy. -/
theorem dlit_cons_isEmpty (p : K × Value) (l : List (K × Value)) :
    (dlit (p :: l)).isEmpty = false := by
  have h1 : 1 ≤ (dlit (p :: l)).length := by
    rw [dlit, List.foldl_cons]
    have h2 : (aset ([] : Record) p.1 p.2) = [(p.1, p.2)] := rfl
    rw [h2]
    exact le_trans (by simp) (foldl_aset_length_ge l [(p.1, p.2)])
  cases h : dlit (p :: l) with
  | nil => rw [h] at h1; simp at h1
  | cons q rest => rfl

/-- `FileSink.write` on an open run with a timestamped record: append and
return the record unchanged. -/
theorem sinkWrite_ok {st : SinkSt} {rid path : K} {L : List Record} {obj : Record}
    (ts : K) (hh : alookup st.handles rid = some path)
    (hf : alookup st.files path = some L)
    (hts : ahas obj "timestamp".data = true) :
    sinkWrite obj (some rid) ts st =
      .ok (⟨st.baseDir, st.handles, aset st.files path (L ++ [obj])⟩, obj) := by
  rw [sinkWrite]
  simp only [hh, hf, hts, if_true, Option.getD_some]

/-- `Trace.add_span` during an active session with an open handle: the span
record is appended to the file and to the in-memory span list. -/
theorem addSpan_ok {st : TraceSt} {rid path : K} {L : List Record}
    (ha : st.activeRunId = some rid)
    (hh : alookup st.sink.handles rid = some path)
    (hf : alookup st.sink.files path = some L)
    (spanId ts wts name : K) (fields : Record) :
    addSpan spanId ts wts name fields st =
      .ok ⟨st.app, st.env,
           ⟨st.sink.baseDir, st.sink.handles,
            aset st.sink.files path (L ++ [mkSpanRec spanId rid name ts fields])⟩,
           some rid, st.spans ++ [mkSpanRec spanId rid name ts fields]⟩ := by
  simp only [addSpan, ha]
  rw [sinkWrite_ok wts hh hf (mkSpanRec_ts spanId rid name ts fields)]

/-- The span records the body's `add_span` calls produce, from index `i`. -/
def bodyRecs (g : Gen) (rid : K) (i : Nat) (calls : List SpanCall) : List Record :=
  match calls with
  | [] => []
  | (name, fields) :: rest =>
      mkSpanRec (g.spanId i) rid name (g.spanTs i) fields :: bodyRecs g rid (i + 1) rest

theorem bodyRecs_length (g : Gen) (rid : K) :
    ∀ calls : List SpanCall, ∀ i, (bodyRecs g rid i calls).length = calls.length := by
  intro calls
  induction calls with
  | nil => intro i; rfl
  | cons p rest ih =>
    intro i
    obtain ⟨name, fields⟩ := p
    simp [bodyRecs, ih]

theorem bodyRecs_get (g : Gen) (rid : K) :
    ∀ calls : List SpanCall, ∀ i j name fields, calls.get? j = some (name, fields) →
      (bodyRecs g rid i calls).get? j =
        some (mkSpanRec (g.spanId (i + j)) rid name (g.spanTs (i + j)) fields) := by
  intro calls
  induction calls with
  | nil => intro i j name fields h; simp at h
  | cons p rest ih =>
    intro i j name fields h
    obtain ⟨n2, f2⟩ := p
    cases j with
    | zero =>
      simp only [List.get?] at h
      obtain ⟨rfl, rfl⟩ : n2 = name ∧ f2 = fields := by
        have := Option.some.inj h
        exact ⟨congrArg Prod.fst this, congrArg Prod.snd this⟩
      simp [bodyRecs]
    | succ j2 =>
      simp only [List.get?] at h
      have := ih (i + 1) j2 name fields h
      simp only [bodyRecs, List.get?]
      rw [this]
      have harith : i + 1 + j2 = i + (j2 + 1) := by omega
      rw [harith]

/-- Running the session body from a good state: every `add_span` succeeds,
the records are appended in order to the file and the span list, and the
handles are untouched. -/
theorem runBody_ok (g : Gen) :
    ∀ calls : List SpanCall, ∀ i : Nat, ∀ app env bd hs fs arid sp rid path L,
      arid = some rid →
      alookup hs rid = some path →
      alookup fs path = some L →
      ∃ fs2,
        runBody g i calls ⟨app, env, ⟨bd, hs, fs⟩, arid, sp⟩ =
          (⟨app, env, ⟨bd, hs, fs2⟩, some rid, sp ++ bodyRecs g rid i calls⟩, none) ∧
        alookup fs2 path = some (L ++ bodyRecs g rid i calls) := by
  intro calls
  induction calls with
  | nil =>
    intro i app env bd hs fs arid sp rid path L ha hh hf
    subst ha
    exact ⟨fs, by simp [runBody, bodyRecs], by simpa [bodyRecs] using hf⟩
  | cons p rest ih =>
    intro i app env bd hs fs arid sp rid path L ha hh hf
    obtain ⟨name, fields⟩ := p
    subst ha
    rw [runBody]
    rw [addSpan_ok rfl hh hf (g.spanId i) (g.spanTs i) (g.writeTs i) name fields]
    have hf2 : alookup (aset fs path (L ++ [mkSpanRec (g.spanId i) rid name (g.spanTs i) fields])) path =
        some (L ++ [mkSpanRec (g.spanId i) rid name (g.spanTs i) fields]) :=
      alookup_aset_self _ _ _
    obtain ⟨fs2, hrun, hlook⟩ := ih (i + 1) app env bd hs _ (some rid)
      (sp ++ [mkSpanRec (g.spanId i) rid name (g.spanTs i) fields]) rid path
      (L ++ [mkSpanRec (g.spanId i) rid name (g.spanTs i) fields]) rfl hh hf2
    refine ⟨fs2, ?_, ?_⟩
    · exact hrun.trans (by simp [bodyRecs])
    · rw [hlook]
      simp [bodyRecs]

/-- The `finally` block from a good state: the summary is appended, the
handle dropped, the in-memory state reset, and the pending outcome returned. -/
theorem sessionEnd_ok {app env bd : K} {hs : List (K × K)} {fs : List (K × List Record)}
    {rid path : K} {L : List Record} (g : Gen) (pending : Option Exn)
    (arid : Option K) (sp : List Record)
    (hh : alookup hs rid = some path) (hf : alookup fs path = some L) :
    sessionEnd g rid pending ⟨app, env, ⟨bd, hs, fs⟩, arid, sp⟩ =
      ((match pending with
        | some e => .error e
        | none => .ok ()),
       ⟨app, env,
        ⟨bd, adrop hs rid,
         aset fs path (L ++ [mkSummaryRec rid g.durationMs sp.length g.sumTs])⟩,
        none, []⟩) := by
  rw [sessionEnd.eq_def]
  dsimp only
  rw [sinkWrite_ok g.sumWriteTs hh hf (mkSummaryRec_ts rid g.durationMs sp.length g.sumTs)]
  rfl

/-- The metadata record the session writes as first line. -/
def sessionMetaRec (g : Gen) (app env : K) (metadata : Record) : Record :=
  mkMetaRec g.runId g.openTs
    (dlit ([("app".data, Value.vstr app), ("env".data, Value.vstr env)] ++ metadata))

/-- The record stream of a session that completes normally. -/
def expLines (g : Gen) (app env : K) (metadata : Record) (calls : List SpanCall) :
    List Record :=
  sessionMetaRec g app env metadata ::
    (bodyRecs g g.runId 0 calls ++
      [mkSummaryRec g.runId g.durationMs calls.length g.sumTs])

/-- The error span recorded when the session body raises. -/
def errSpanRec (g : Gen) (_calls : List SpanCall) (ty msg : K) : Record :=
  mkSpanRec g.errSpanId g.runId "session.error".data g.errSpanTs
    [("error".data, Value.vstr msg), ("error_type".data, Value.vstr ty)]

/-- The record stream of a session whose body raises after its calls. -/
def expErrLines (g : Gen) (app env : K) (metadata : Record) (calls : List SpanCall)
    (ty msg : K) : List Record :=
  sessionMetaRec g app env metadata ::
    (bodyRecs g g.runId 0 calls ++
      [errSpanRec g calls ty msg,
       mkSummaryRec g.runId g.durationMs (calls.length + 1) g.sumTs])

/-- A session that completes without the body raising: the caller sees
success, the stream is the metadata line, the span lines in call order and
the summary line, the handle is closed and the state reset. -/
theorem runSession_ok (g : Gen) (metadata : Record) (calls : List SpanCall)
    (st0 : TraceSt) :
    ∃ stF, runSession g metadata calls none st0 = (.ok (), stF) ∧
      alookup stF.sink.files (mkPath st0.sink.baseDir g.runId g.openTs) =
        some (expLines g st0.app st0.env metadata calls) ∧
      alookup stF.sink.handles g.runId = none ∧
      stF.activeRunId = none ∧ stF.spans = [] := by
  obtain ⟨app, env, ⟨bd, hs0, fs0⟩, arid0, sp0⟩ := st0
  obtain ⟨fs2, hrun, hlook⟩ := runBody_ok g calls 0 app env bd
    (aset hs0 g.runId (mkPath bd g.runId g.openTs))
    (aset fs0 (mkPath bd g.runId g.openTs) [sessionMetaRec g app env metadata])
    (some g.runId) [] g.runId (mkPath bd g.runId g.openTs)
    [sessionMetaRec g app env metadata] rfl
    (alookup_aset_self _ _ _) (alookup_aset_self _ _ _)
  have hmain : runSession g metadata calls none ⟨app, env, ⟨bd, hs0, fs0⟩, arid0, sp0⟩ =
      (.ok (),
       ⟨app, env,
        ⟨bd, adrop (aset hs0 g.runId (mkPath bd g.runId g.openTs)) g.runId,
         aset fs2 (mkPath bd g.runId g.openTs)
           ((sessionMetaRec g app env metadata :: bodyRecs g g.runId 0 calls) ++
            [mkSummaryRec g.runId g.durationMs
              (bodyRecs g g.runId 0 calls).length g.sumTs])⟩,
        none, []⟩) := by
    rw [runSession]
    simp only [sinkOpen, List.cons_append, List.nil_append]
    rw [dlit_cons_isEmpty]
    simp only [Bool.false_eq_true, if_false, sessionMetaRec, mkMetaRec,
      List.cons_append, List.nil_append] at hrun hlook ⊢
    rw [hrun]
    dsimp only
    rw [sessionEnd_ok g none (some g.runId) (bodyRecs g g.runId 0 calls)
      (alookup_aset_self _ _ _) hlook]
    rfl
  refine ⟨_, hmain, ?_, ?_, rfl, rfl⟩
  · dsimp only
    rw [alookup_aset_self]
    simp [expLines, bodyRecs_length]
  · dsimp only
    rw [alookup_adrop]

/-- A session whose body raises `(ty, msg)` after its calls: the caller sees
the original error, the stream additionally carries one session-error span
before the summary, the handle is closed and the state reset. -/
theorem runSession_err (g : Gen) (metadata : Record) (calls : List SpanCall)
    (ty msg : K) (st0 : TraceSt) :
    ∃ stF, runSession g metadata calls (some (ty, msg)) st0 =
        (.error (.user ty msg), stF) ∧
      alookup stF.sink.files (mkPath st0.sink.baseDir g.runId g.openTs) =
        some (expErrLines g st0.app st0.env metadata calls ty msg) ∧
      alookup stF.sink.handles g.runId = none ∧
      stF.activeRunId = none ∧ stF.spans = [] := by
  obtain ⟨app, env, ⟨bd, hs0, fs0⟩, arid0, sp0⟩ := st0
  obtain ⟨fs2, hrun, hlook⟩ := runBody_ok g calls 0 app env bd
    (aset hs0 g.runId (mkPath bd g.runId g.openTs))
    (aset fs0 (mkPath bd g.runId g.openTs) [sessionMetaRec g app env metadata])
    (some g.runId) [] g.runId (mkPath bd g.runId g.openTs)
    [sessionMetaRec g app env metadata] rfl
    (alookup_aset_self _ _ _) (alookup_aset_self _ _ _)
  have haddErr := addSpan_ok
    (rfl :
      (⟨app, env, ⟨bd, aset hs0 g.runId (mkPath bd g.runId g.openTs), fs2⟩,
        some g.runId,
        ([] : List Record) ++ bodyRecs g g.runId 0 calls⟩ : TraceSt).activeRunId =
        some g.runId)
    (alookup_aset_self _ _ _) hlook
    g.errSpanId g.errSpanTs (g.writeTs calls.length) "session.error".data
    [("error".data, Value.vstr msg), ("error_type".data, Value.vstr ty)]
  have hmain : runSession g metadata calls (some (ty, msg))
        ⟨app, env, ⟨bd, hs0, fs0⟩, arid0, sp0⟩ =
      (.error (.user ty msg),
       ⟨app, env,
        ⟨bd, adrop (aset hs0 g.runId (mkPath bd g.runId g.openTs)) g.runId,
         aset (aset fs2 (mkPath bd g.runId g.openTs)
             ((sessionMetaRec g app env metadata :: bodyRecs g g.runId 0 calls) ++
              [mkSpanRec g.errSpanId g.runId "session.error".data g.errSpanTs
                [("error".data, Value.vstr msg), ("error_type".data, Value.vstr ty)]]))
           (mkPath bd g.runId g.openTs)
           (((sessionMetaRec g app env metadata :: bodyRecs g g.runId 0 calls) ++
             [mkSpanRec g.errSpanId g.runId "session.error".data g.errSpanTs
               [("error".data, Value.vstr msg), ("error_type".data, Value.vstr ty)]]) ++
            [mkSummaryRec g.runId g.durationMs
              (bodyRecs g g.runId 0 calls ++
                [mkSpanRec g.errSpanId g.runId "session.error".data g.errSpanTs
                  [("error".data, Value.vstr msg),
                   ("error_type".data, Value.vstr ty)]]).length g.sumTs])⟩,
        none, []⟩) := by
    rw [runSession]
    simp only [sinkOpen, List.cons_append, List.nil_append]
    rw [dlit_cons_isEmpty]
    simp only [Bool.false_eq_true, if_false, sessionMetaRec, mkMetaRec,
      List.cons_append, List.nil_append] at hrun haddErr hlook ⊢
    rw [hrun]
    dsimp only [exnStr]
    rw [haddErr]
    dsimp only
    rw [sessionEnd_ok g (some (.user ty msg)) (some g.runId)
      (bodyRecs g g.runId 0 calls ++
        [mkSpanRec g.errSpanId g.runId "session.error".data g.errSpanTs
          [("error".data, Value.vstr msg), ("error_type".data, Value.vstr ty)]])
      (alookup_aset_self _ _ _) (alookup_aset_self _ _ _)]
    rfl
  refine ⟨_, hmain, ?_, ?_, rfl, rfl⟩
  · dsimp only
    rw [alookup_aset_self]
    simp [expErrLines, errSpanRec, bodyRecs_length]
  · dsimp only
    rw [alookup_adrop]

/-- A concrete generator for witness sessions. -/
def cGen : Gen where
  runId := "run_0001".data
  openTs := "T0".data
  spanId := fun i => "span_".data ++ List.replicate i 'x'
  spanTs := fun i => "ST".data ++ List.replicate i 'x'
  writeTs := fun _ => "WT".data
  errSpanId := "span_err".data
  errSpanTs := "STE".data
  sumTs := "TS".data
  sumWriteTs := "TSW".data
  durationMs := .vnum 42

/-- A concrete freshly-constructed `Trace` state. -/
def st00 : TraceSt := ⟨"app".data, "dev".data, ⟨"base".data, [], []⟩, none, []⟩

/-- gets of `bodyRecs` follow the calls, index-shifted. -/
theorem bodyRecs_get2 (g : Gen) (rid : K) :
    ∀ calls : List SpanCall, ∀ i j name fields, calls.get? j = some (name, fields) →
      (bodyRecs g rid i calls).get? j =
        some (mkSpanRec (g.spanId (i + j)) rid name (g.spanTs (i + j)) fields) := by
  intro calls
  induction calls with
  | nil => intro i j name fields h; simp at h
  | cons p rest ih =>
    intro i j name fields h
    obtain ⟨n2, f2⟩ := p
    cases j with
    | zero =>
      simp only [List.get?] at h
      obtain ⟨rfl, rfl⟩ : n2 = name ∧ f2 = fields := by
        have h2 := Option.some.inj h
        exact ⟨congrArg Prod.fst h2, congrArg Prod.snd h2⟩
      simp [bodyRecs]
    | succ j2 =>
      simp only [List.get?] at h
      have h2 := ih (i + 1) j2 name fields h
      simp only [bodyRecs, List.get?]
      rw [h2]
      have harith : i + 1 + j2 = i + (j2 + 1) := by omega
      rw [harith]

/-! ## Claim theorems -/

/-- C3: a session completed without the body raising, with the given
`add_span` calls, yields success and a record stream of exactly N+2 lines:
the metadata line first, the N span lines in call order, the summary line
last, and the summary's span count equal to N. -/
theorem c3_session_stream_shape (g : Gen) (metadata : Record) (calls : List SpanCall)
    (st0 : TraceSt) :
    (runSession g metadata calls none st0).1 = .ok () ∧
    alookup (runSession g metadata calls none st0).2.sink.files
        (mkPath st0.sink.baseDir g.runId g.openTs) =
      some (expLines g st0.app st0.env metadata calls) ∧
    (expLines g st0.app st0.env metadata calls).length = calls.length + 2 ∧
    (expLines g st0.app st0.env metadata calls).head? =
      some (sessionMetaRec g st0.app st0.env metadata) ∧
    (expLines g st0.app st0.env metadata calls).getLast? =
      some (mkSummaryRec g.runId g.durationMs calls.length g.sumTs) ∧
    (∀ i name fields, calls.get? i = some (name, fields) →
      (expLines g st0.app st0.env metadata calls).get? (i + 1) =
        some (mkSpanRec (g.spanId i) g.runId name (g.spanTs i) fields)) ∧
    alookup (mkSummaryRec g.runId g.durationMs calls.length g.sumTs)
        "span_count".data = some (.vnum (calls.length : Int)) := by
  obtain ⟨stF, heq, hfiles, _, _, _⟩ := runSession_ok g metadata calls st0
  refine ⟨by rw [heq], by rw [heq]; exact hfiles, ?_, rfl, ?_, ?_, rfl⟩
  · simp [expLines, bodyRecs_length]
  · show (sessionMetaRec g st0.app st0.env metadata ::
      (bodyRecs g g.runId 0 calls ++
        [mkSummaryRec g.runId g.durationMs calls.length g.sumTs])).getLast? = _
    rw [← List.cons_append, List.getLast?_concat]
  · intro i name fields h
    have hi : i < calls.length := by
      rcases List.get?_eq_some.mp h with ⟨hlt, _⟩
      exact hlt
    have hb := bodyRecs_get2 g g.runId calls 0 i name fields h
    rw [Nat.zero_add] at hb
    show (sessionMetaRec g st0.app st0.env metadata ::
      (bodyRecs g g.runId 0 calls ++
        [mkSummaryRec g.runId g.durationMs calls.length g.sumTs])).get? (i + 1) = _
    simp only [List.get?]
    rw [List.get?_append (by rw [bodyRecs_length]; exact hi)]
    exact hb

/-- Witness for C3 at a concrete one-call session. -/
theorem c3_session_stream_shape_w :
    ([ ("llm.call".data, [("model".data, Value.vstr "gpt-4".data)])].get? 0 =
      some ("llm.call".data, [("model".data, Value.vstr "gpt-4".data)])) ∧
    (expLines cGen "app".data "dev".data []
        [("llm.call".data, [("model".data, Value.vstr "gpt-4".data)])]).get? 1 =
      some (mkSpanRec (cGen.spanId 0) cGen.runId "llm.call".data (cGen.spanTs 0)
        [("model".data, Value.vstr "gpt-4".data)]) :=
  ⟨rfl,
    (c3_session_stream_shape cGen []
        [("llm.call".data, [("model".data, Value.vstr "gpt-4".data)])]
        st00).2.2.2.2.2.1 0 "llm.call".data
      [("model".data, Value.vstr "gpt-4".data)] rfl⟩

/-- C4: a session whose body raises after N calls yields a stream of exactly
N+3 lines (the extra line being the session-error span, just before the
summary), the summary written and the handle closed during teardown, the
original error — not a substitute — observed by the caller, and the
in-memory state reset to idle. -/
theorem c4_error_session_stream (g : Gen) (metadata : Record) (calls : List SpanCall)
    (ty msg : K) (st0 : TraceSt) :
    (runSession g metadata calls (some (ty, msg)) st0).1 = .error (.user ty msg) ∧
    alookup (runSession g metadata calls (some (ty, msg)) st0).2.sink.files
        (mkPath st0.sink.baseDir g.runId g.openTs) =
      some (expErrLines g st0.app st0.env metadata calls ty msg) ∧
    (expErrLines g st0.app st0.env metadata calls ty msg).length = calls.length + 3 ∧
    (expErrLines g st0.app st0.env metadata calls ty msg).get? (calls.length + 1) =
      some (errSpanRec g calls ty msg) ∧
    (expErrLines g st0.app st0.env metadata calls ty msg).getLast? =
      some (mkSummaryRec g.runId g.durationMs (calls.length + 1) g.sumTs) ∧
    alookup (runSession g metadata calls (some (ty, msg)) st0).2.sink.handles
        g.runId = none ∧
    (runSession g metadata calls (some (ty, msg)) st0).2.activeRunId = none ∧
    (runSession g metadata calls (some (ty, msg)) st0).2.spans = [] := by
  obtain ⟨stF, heq, hfiles, hhandle, hactive, hspans⟩ :=
    runSession_err g metadata calls ty msg st0
  refine ⟨by rw [heq], by rw [heq]; exact hfiles, ?_, ?_, ?_,
    by rw [heq]; exact hhandle, by rw [heq]; exact hactive, by rw [heq]; exact hspans⟩
  · simp [expErrLines, bodyRecs_length]
  · show (sessionMetaRec g st0.app st0.env metadata ::
      (bodyRecs g g.runId 0 calls ++
        [errSpanRec g calls ty msg,
         mkSummaryRec g.runId g.durationMs (calls.length + 1) g.sumTs])).get?
        (calls.length + 1) = _
    simp only [List.get?]
    rw [List.get?_append_right (by rw [bodyRecs_length])]
    rw [bodyRecs_length]
    simp
  · show (sessionMetaRec g st0.app st0.env metadata ::
      (bodyRecs g g.runId 0 calls ++
        [errSpanRec g calls ty msg,
         mkSummaryRec g.runId g.durationMs (calls.length + 1) g.sumTs])).getLast? = _
    have hsplit : [errSpanRec g calls ty msg,
        mkSummaryRec g.runId g.durationMs (calls.length + 1) g.sumTs] =
        [errSpanRec g calls ty msg] ++
          [mkSummaryRec g.runId g.durationMs (calls.length + 1) g.sumTs] := rfl
    rw [hsplit, ← List.append_assoc, ← List.cons_append, ← List.cons_append,
      List.getLast?_concat]


/-- C1: for every string containing a recognizable secret pattern (here an
"sk-" prefixed token: `sk-` followed by 20 or more characters of the
pattern's tail class `[\w\-]`), the output of `sanitize` on that string is
`redact_string` of it, does not contain the original token, and does contain
the redaction marker `"[REDACTED]"`. -/
theorem c1_sanitize_redacts_sk_token (a b c : List Char)
    (hb : ∀ ch ∈ b, isWordDash ch = true) (hn : 20 ≤ b.length) :
    sanitizeV (Value.vstr (a ++ ("sk-".data ++ b) ++ c)) =
      Value.vstr (redactStringL (a ++ ("sk-".data ++ b) ++ c)) ∧
    ¬ occursIn ("sk-".data ++ b) (redactStringL (a ++ ("sk-".data ++ b) ++ c)) ∧
    occursIn markerChars (redactStringL (a ++ ("sk-".data ++ b) ++ c)) := by
  have hsk : "sk-".data ++ b = 's' :: 'k' :: '-' :: b := rfl
  refine ⟨safeV_str (by omega) _, ?_, ?_⟩
  · rw [hsk]
    exact (redactStringL_sk hb hn).1
  · rw [hsk]
    exact (redactStringL_sk hb hn).2

/-- Witness for C1 at the concrete token `sk-aaaaaaaaaaaaaaaaaaaa`. -/
theorem c1_sanitize_redacts_sk_token_w :
    (∀ ch ∈ List.replicate 20 'a', isWordDash ch = true) ∧
    20 ≤ (List.replicate 20 'a').length ∧
    (¬ occursIn ("sk-".data ++ List.replicate 20 'a')
        (redactStringL ([] ++ ("sk-".data ++ List.replicate 20 'a') ++ [])) ∧
      occursIn markerChars
        (redactStringL ([] ++ ("sk-".data ++ List.replicate 20 'a') ++ []))) :=
  ⟨by decide, by decide,
    (c1_sanitize_redacts_sk_token [] (List.replicate 20 'a') []
        (by decide) (by decide)).2⟩

/-- C2: for every mapping and every entry of it, `sanitize` replaces the
value wholly with the redaction marker when the key's case-insensitive form
is one of the fixed sensitive key names (whatever the value is), and
otherwise recurses into the value one level deeper; the listed example keys
and case variants are all sensitive. -/
theorem c2_sensitive_key_redaction (kvs : List (K × Value)) (i : Nat) (k : K) (v : Value)
    (h : kvs.get? i = some (k, v)) :
    sanitizeV (Value.vdict kvs) = Value.vdict (safeEntries 0 10 kvs) ∧
    (safeEntries 0 10 kvs).get? i =
      some (if isSensitiveKey k then (k, Value.vstr markerChars)
            else (k, safeV 1 10 v)) ∧
    (isSensitiveKey "api_key".data ∧ isSensitiveKey "API_KEY".data ∧
      isSensitiveKey "Secret".data ∧ isSensitiveKey "password".data ∧
      isSensitiveKey "Token".data ∧ isSensitiveKey "private_key".data ∧
      isSensitiveKey "client_secret".data ∧ isSensitiveKey "bearer".data ∧
      isSensitiveKey "api-key".data ∧ isSensitiveKey "apikey".data) := by
  refine ⟨safeV_dict (by omega) kvs, ?_, by decide⟩
  rw [safeEntries, List.get?_map, h]
  by_cases hks : isSensitiveKey k <;> simp [hks]

/-- Witness for C2 on a concrete mapping with a sensitive and an ordinary key. -/
theorem c2_sensitive_key_redaction_w :
    ([( "api_key".data, Value.vstr "sk-1234567890abcdefghijk".data),
      ("safe_data".data, Value.vstr "this is fine".data)].get? 0 =
        some ("api_key".data, Value.vstr "sk-1234567890abcdefghijk".data)) ∧
    (safeEntries 0 10
        [( "api_key".data, Value.vstr "sk-1234567890abcdefghijk".data),
         ("safe_data".data, Value.vstr "this is fine".data)]).get? 0 =
      some (if isSensitiveKey "api_key".data
            then ("api_key".data, Value.vstr markerChars)
            else ("api_key".data, safeV 1 10 (Value.vstr "sk-1234567890abcdefghijk".data))) :=
  ⟨rfl,
    (c2_sensitive_key_redaction
      [( "api_key".data, Value.vstr "sk-1234567890abcdefghijk".data),
       ("safe_data".data, Value.vstr "this is fine".data)] 0 "api_key".data
      (Value.vstr "sk-1234567890abcdefghijk".data) rfl).2.1⟩

/-- The string of the C5 counterexample. -/
def pwdEx : K := "pwd= 123 456 7890".data

/-- C5 counterexample: `sanitize` is not idempotent.  On
`"pwd= 123 456 7890"` the first pass leaves `"pwd= [REDACTED]"` (the phone
pattern fires, the password pattern does not, because the run after `pwd=`
is shorter than 6 non-space characters), and a second pass then matches the
password pattern against the marker itself. -/
theorem c5_not_idempotent_cex :
    sanitizeV (sanitizeV (Value.vstr pwdEx)) ≠ sanitizeV (Value.vstr pwdEx) := by
  have h1 : sanitizeV (Value.vstr pwdEx) = Value.vstr "pwd= [REDACTED]".data := by
    have h : redactStringL pwdEx = "pwd= [REDACTED]".data := by decide
    have h0 := @safeV_str 0 10 (by omega) pwdEx
    rw [h] at h0
    exact h0
  have h2 : sanitizeV (Value.vstr "pwd= [REDACTED]".data) =
      Value.vstr "[REDACTED]".data := by
    have h : redactStringL "pwd= [REDACTED]".data = "[REDACTED]".data := by decide
    have h0 := @safeV_str 0 10 (by omega) "pwd= [REDACTED]".data
    rw [h] at h0
    exact h0
  rw [h1, h2]
  intro h
  injection h with h3
  exact absurd h3 (by decide)

/-- C5 amended: the redaction marker itself matches no detection pattern, so
`sanitize` is a no-op on already-produced markers, and `sanitize` is
idempotent on null, boolean and numeric atoms — but not on all strings. -/
theorem c5_marker_fixed_point :
    sanitizeV (Value.vstr markerChars) = Value.vstr markerChars ∧
    redactStringL markerChars = markerChars ∧
    (∀ b : Bool, sanitizeV (sanitizeV (Value.vbool b)) = sanitizeV (Value.vbool b)) ∧
    (∀ n : Int, sanitizeV (sanitizeV (Value.vnum n)) = sanitizeV (Value.vnum n)) ∧
    sanitizeV (sanitizeV Value.vnull) = sanitizeV Value.vnull := by
  have hm : redactStringL markerChars = markerChars := by decide
  have h0 := @safeV_str 0 10 (by omega) markerChars
  rw [hm] at h0
  refine ⟨h0, hm, ?_, ?_, rfl⟩
  · intro b; rfl
  · intro n; rfl


/-- C8: usage errors — `add_span` with no active session fails with the
RuntimeError message and writes nothing; `FileSink.write` for an unknown
run id fails with the run-specific ValueError; `FileSink.write` with the
run id omitted and no open runs fails with the open-first ValueError. -/
theorem c8_usage_errors (spanId ts wts name : K) (fields : Record) (st : TraceSt)
    (obj : Record) (ts2 : K) (sk : SinkSt) (rid : K) :
    (st.activeRunId = none →
      addSpan spanId ts wts name fields st = .error (.runtimeErr noSessionMsg)) ∧
    (alookup sk.handles rid = none →
      sinkWrite obj (some rid) ts2 sk =
        .error (.valueErr ("No active trace for run_id: ".data ++ rid))) ∧
    (sk.handles = [] →
      sinkWrite obj none ts2 sk =
        .error (.valueErr "No active trace runs. Call open() first.".data)) := by
  refine ⟨fun h => ?_, fun h => ?_, fun h => ?_⟩
  · simp only [addSpan, h]
  · rw [sinkWrite]
    dsimp only
    rw [h]
  · rw [sinkWrite, h]
    rfl

/-- Witness for C8 at concrete idle states. -/
theorem c8_usage_errors_w :
    addSpan "s".data "t".data "w".data "n".data [] st00 =
      .error (.runtimeErr noSessionMsg) ∧
    sinkWrite [] (some "r9".data) "t2".data ⟨"base".data, [], []⟩ =
      .error (.valueErr ("No active trace for run_id: ".data ++ "r9".data)) ∧
    sinkWrite [] none "t2".data ⟨"base".data, [], []⟩ =
      .error (.valueErr "No active trace runs. Call open() first.".data) := by
  have h := c8_usage_errors "s".data "t".data "w".data "n".data [] st00 []
    "t2".data ⟨"base".data, [], []⟩ "r9".data
  exact ⟨h.1 rfl, h.2.1 rfl, h.2.2 rfl⟩

/-- C10: `FileSink.write` mutates the caller's record — when no `timestamp`
key is present one is appended in place (and ends up in the written line),
and when one is present the record passes through unchanged; either way the
record as it stands after the call is appended to the run's file. -/
theorem c10_write_timestamp_mutation (sk : SinkSt) (rid path : K) (L : List Record)
    (obj : Record) (ts : K)
    (hh : alookup sk.handles rid = some path)
    (hf : alookup sk.files path = some L) :
    (ahas obj "timestamp".data = false →
      sinkWrite obj (some rid) ts sk =
        .ok (⟨sk.baseDir, sk.handles,
              aset sk.files path
                (L ++ [obj ++ [("timestamp".data, Value.vstr ts)]])⟩,
             obj ++ [("timestamp".data, Value.vstr ts)]) ∧
      ahas (obj ++ [("timestamp".data, Value.vstr ts)]) "timestamp".data = true ∧
      alookup (obj ++ [("timestamp".data, Value.vstr ts)]) "timestamp".data =
        some (.vstr ts)) ∧
    (ahas obj "timestamp".data = true →
      sinkWrite obj (some rid) ts sk =
        .ok (⟨sk.baseDir, sk.handles, aset sk.files path (L ++ [obj])⟩, obj)) := by
  constructor
  · intro h
    refine ⟨?_, ?_, alookup_append_self obj _ _ h⟩
    · have hm : aset obj "timestamp".data (Value.vstr ts) =
          obj ++ [("timestamp".data, Value.vstr ts)] := by
        rw [aset, if_neg (by simp [h])]
      rw [sinkWrite]
      simp only [hh, hf, h, Bool.false_eq_true, if_false, Option.getD_some, hm]
    · rw [ahas_append, h, Bool.false_or, ahas_cons]
      simp
  · intro h
    exact sinkWrite_ok ts hh hf h

/-- Witness for C10 on a record lacking a timestamp. -/
theorem c10_write_timestamp_mutation_w :
    ahas [("a".data, Value.vnull)] "timestamp".data = false ∧
    ahas ([("a".data, Value.vnull)] ++ [("timestamp".data, Value.vstr "T".data)])
      "timestamp".data = true ∧
    alookup ([("a".data, Value.vnull)] ++
        [("timestamp".data, Value.vstr "T".data)]) "timestamp".data =
      some (.vstr "T".data) :=
  ⟨rfl,
    ((c10_write_timestamp_mutation ⟨"base".data, [("r1".data, "p1".data)],
        [("p1".data, [])]⟩ "r1".data "p1".data [] [("a".data, Value.vnull)]
        "T".data rfl rfl).1 rfl).2.1,
    ((c10_write_timestamp_mutation ⟨"base".data, [("r1".data, "p1".data)],
        [("p1".data, [])]⟩ "r1".data "p1".data [] [("a".data, Value.vnull)]
        "T".data rfl rfl).1 rfl).2.2⟩

/-- Updating a different key in place leaves a lookup unchanged. -/
theorem alookup_map_set_ne {A : Type} (l : List (K × A)) (k2 k : K) (v : A)
    (hne : k2 ≠ k) :
    alookup (l.map (fun p => if p.1 == k2 then (k2, v) else p)) k = alookup l k := by
  induction l with
  | nil => rfl
  | cons p rest ih =>
    obtain ⟨k3, w⟩ := p
    rw [List.map_cons]
    by_cases h3 : k3 = k2
    · subst h3
      have hh : (if ((k3, w).1 == k3) = true then (k3, v) else (k3, w)) = (k3, v) := by
        simp
      rw [hh, alookup_cons, alookup_cons, if_neg (by simp [hne]),
        if_neg (by simp [hne])]
      exact ih
    · have hh : (if ((k3, w).1 == k2) = true then (k2, v) else (k3, w)) = (k3, w) := by
        simp [h3]
      rw [hh, alookup_cons, alookup_cons]
      by_cases h4 : k3 = k
      · rw [if_pos (by simp [h4]), if_pos (by simp [h4])]
      · rw [if_neg (by simp [h4]), if_neg (by simp [h4])]
        exact ih

/-- Appending an entry with a different key leaves a lookup unchanged. -/
theorem alookup_append_ne {A : Type} (l : List (K × A)) (k2 k : K) (v : A)
    (hne : k2 ≠ k) :
    alookup (l ++ [(k2, v)]) k = alookup l k := by
  induction l with
  | nil =>
    rw [List.nil_append, alookup_cons, if_neg (by simp [hne])]
  | cons p rest ih =>
    obtain ⟨k3, w⟩ := p
    rw [List.cons_append, alookup_cons, alookup_cons]
    by_cases h4 : k3 = k
    · rw [if_pos (by simp [h4]), if_pos (by simp [h4])]
    · rw [if_neg (by simp [h4]), if_neg (by simp [h4])]
      exact ih

/-- Setting a different key leaves a lookup unchanged. -/
theorem alookup_aset_ne {A : Type} (l : List (K × A)) (k2 k : K) (v : A)
    (hne : k2 ≠ k) :
    alookup (aset l k2 v) k = alookup l k := by
  by_cases hc : ahas l k2
  · rw [aset, if_pos hc]
    exact alookup_map_set_ne l k2 k v hne
  · rw [aset, if_neg hc]
    exact alookup_append_ne l k2 k v hne

/-- Folding in entries that all avoid key `k` leaves the lookup at `k`
unchanged. -/
theorem alookup_foldl_aset_ne {A : Type} (l2 : List (K × A)) :
    ∀ r : List (K × A), ∀ k : K, (∀ p ∈ l2, p.1 ≠ k) →
      alookup (l2.foldl (fun r p => aset r p.1 p.2) r) k = alookup r k := by
  induction l2 with
  | nil => intro r k _; rfl
  | cons p rest ih =>
    intro r k h
    simp only [List.foldl_cons]
    rw [ih _ _ (fun q hq => h q (List.mem_cons_of_mem p hq))]
    exact alookup_aset_ne r p.1 k p.2 (h p (List.mem_cons_self p rest))

/-- A key just set is present. -/
theorem ahas_aset_self {A : Type} (l : List (K × A)) (k : K) (v : A) :
    ahas (aset l k v) k = true := by
  by_cases hc : ahas l k
  · rw [aset, if_pos hc]
    exact ahas_map_set k v hc
  · rw [aset, if_neg hc, ahas_append, ahas_cons]
    simp

/-- After folding a list of entries in, every key of the list is present. -/
theorem ahas_foldl_aset_mem {A : Type} (l2 : List (K × A)) :
    ∀ r : List (K × A), ∀ p ∈ l2,
      ahas (l2.foldl (fun r q => aset r q.1 q.2) r) p.1 = true := by
  induction l2 with
  | nil => intro r p hp; simp at hp
  | cons q rest ih =>
    intro r p hp
    simp only [List.foldl_cons]
    rcases List.mem_cons.mp hp with h | h
    · subst h
      exact ahas_foldl_aset rest _ _ (ahas_aset_self r p.1 p.2)
    · exact ih _ p h

/-- C7: counterexample — `FileSink.open` with an empty metadata dict writes
no metadata line at all: the run's file exists but holds zero records,
where the spec promises exactly one metadata line including for empty
metadata. -/
theorem c7_empty_metadata_cex :
    (sinkOpen "r1".data [] "T0".data ⟨"base".data, [], []⟩).2 =
      mkPath "base".data "r1".data "T0".data ∧
    alookup (sinkOpen "r1".data [] "T0".data ⟨"base".data, [], []⟩).1.files
        (mkPath "base".data "r1".data "T0".data) = some [] ∧
    ([] : List Record).length = 0 := ⟨rfl, rfl, rfl⟩

/-- C7 (amended): for a NON-empty metadata dict whose keys avoid the three
reserved names, `FileSink.open` returns the new file's path and writes
exactly one line — the metadata record with `record_type` "metadata", the
run id, a timestamp, and all the caller-supplied metadata keys. -/
theorem c7_open_writes_metadata (st : SinkSt) (runId ts : K) (metadata : Record)
    (hne : metadata ≠ [])
    (hres : ∀ p ∈ metadata, p.1 ≠ "record_type".data ∧ p.1 ≠ "run_id".data ∧
      p.1 ≠ "timestamp".data) :
    (sinkOpen runId metadata ts st).2 = mkPath st.baseDir runId ts ∧
    alookup (sinkOpen runId metadata ts st).1.files (mkPath st.baseDir runId ts) =
      some [mkMetaRec runId ts metadata] ∧
    alookup (mkMetaRec runId ts metadata) "record_type".data =
      some (.vstr "metadata".data) ∧
    alookup (mkMetaRec runId ts metadata) "run_id".data = some (.vstr runId) ∧
    alookup (mkMetaRec runId ts metadata) "timestamp".data = some (.vstr ts) ∧
    (∀ p ∈ metadata, ahas (mkMetaRec runId ts metadata) p.1 = true) := by
  have hie : metadata.isEmpty = false := by
    cases metadata with
    | nil => exact absurd rfl hne
    | cons a l => rfl
  have hunf : mkMetaRec runId ts metadata =
      metadata.foldl (fun r p => aset r p.1 p.2)
        (dlit [("record_type".data, Value.vstr "metadata".data),
               ("run_id".data, Value.vstr runId),
               ("timestamp".data, Value.vstr ts)]) := by
    rw [mkMetaRec, dlit, dlit, List.foldl_append]
  refine ⟨rfl, ?_, ?_, ?_, ?_, ?_⟩
  · simp only [sinkOpen, hie, Bool.false_eq_true, if_false]
    exact alookup_aset_self _ _ _
  · rw [hunf, alookup_foldl_aset_ne metadata _ _ (fun p hp => (hres p hp).1)]
    rfl
  · rw [hunf, alookup_foldl_aset_ne metadata _ _ (fun p hp => (hres p hp).2.1)]
    rfl
  · rw [hunf, alookup_foldl_aset_ne metadata _ _ (fun p hp => (hres p hp).2.2)]
    rfl
  · intro p hp
    rw [hunf]
    exact ahas_foldl_aset_mem metadata _ p hp

/-- Witness for C7 with one metadata entry. -/
theorem c7_open_writes_metadata_w :
    alookup (sinkOpen "r1".data [("scenario".data, Value.vstr "demo".data)]
        "T0".data ⟨"base".data, [], []⟩).1.files
      (mkPath "base".data "r1".data "T0".data) =
      some [mkMetaRec "r1".data "T0".data
        [("scenario".data, Value.vstr "demo".data)]] ∧
    alookup (mkMetaRec "r1".data "T0".data
        [("scenario".data, Value.vstr "demo".data)]) "record_type".data =
      some (.vstr "metadata".data) := by
  have h := c7_open_writes_metadata ⟨"base".data, [], []⟩ "r1".data "T0".data
    [("scenario".data, Value.vstr "demo".data)] (by simp)
    (by
      intro p hp
      rw [List.mem_singleton] at hp
      subst hp
      exact ⟨by decide, by decide, by decide⟩)
  exact ⟨h.2.1, h.2.2.1⟩

/-- All keys of the list are fresh: no key occurs twice. -/
def freshKeys : List (K × Value) → Bool
  | [] => true
  | p :: rest => (!(ahas rest p.1)) && freshKeys rest

/-- Folding a fresh-keyed list into a base where none of its keys occur
appends it verbatim. -/
theorem foldl_aset_fresh : ∀ (l r : List (K × Value)),
    (∀ p ∈ l, ahas r p.1 = false) → freshKeys l = true →
    l.foldl (fun r q => aset r q.1 q.2) r = r ++ l := by
  intro l
  induction l with
  | nil => intro r _ _; simp
  | cons p rest ih =>
    intro r hdis hf
    simp only [freshKeys, Bool.and_eq_true] at hf
    obtain ⟨hf1, hf2⟩ := hf
    rw [Bool.not_eq_true'] at hf1
    simp only [List.foldl_cons]
    have h1 : aset r p.1 p.2 = r ++ [p] := by
      rw [aset, if_neg (by simp [hdis p (List.mem_cons_self p rest)])]
    rw [h1, ih (r ++ [p]) ?side hf2, List.append_assoc, List.singleton_append]
    case side =>
    intro q hq
    rw [ahas_append, hdis q (List.mem_cons_of_mem p hq), Bool.false_or, ahas_cons]
    have hp1 : (p.1 == q.1) = false := by
      by_contra hcon
      rw [Bool.not_eq_false] at hcon
      have he : p.1 = q.1 := eq_of_beq hcon
      have ht : ahas rest p.1 = true := by
        rw [ahas, List.any_eq_true]
        exact ⟨q, hq, by rw [he]; exact beq_self_eq_true _⟩
      rw [ht] at hf1
      exact absurd hf1 (by decide)
    rw [hp1]
    rfl

/-- A dict literal with pairwise-fresh keys is the list itself. -/
theorem dlit_fresh (l : List (K × Value)) (h : freshKeys l = true) : dlit l = l := by
  rw [dlit, foldl_aset_fresh l [] (fun p _ => rfl) h]
  rw [List.nil_append]

/-- A concrete `Trace` state with an active session. -/
def actSt : TraceSt :=
  ⟨"app".data, "dev".data,
   ⟨"base".data, [("r1".data, "p1".data)], [("p1".data, [])]⟩,
   some "r1".data, []⟩

/-- C6: counterexample — when the wrapped function raises OUTSIDE any active
session, the `finally` block's `add_span` raises RuntimeError, which REPLACES
the original exception; the caller sees the RuntimeError, not the original
error, and no span record is written at all. -/
theorem c6_wrapper_no_session_cex :
    spanWrapper "s1".data "t1".data "w1".data "nm".data "fn".data (.vnum 7)
        (.error (.user "ValueError".data "boom".data)) st00 =
      (.error (.runtimeErr noSessionMsg), st00) ∧
    Exn.runtimeErr noSessionMsg ≠ .user "ValueError".data "boom".data ∧
    st00.spans = [] ∧ st00.sink.files = [] := by
  refine ⟨rfl, ?_, rfl, rfl⟩
  decide

/-- C6 (amended): INSIDE an active session, the `span` decorator's wrapper
emits exactly one span per invocation — carrying the wrapped function's name,
the rounded duration, status "ok"/"error" and the error message (None on
success) — and passes the wrapped call's outcome through unchanged: the
result on success, the original exception on failure. -/
theorem c6_wrapper_span_and_reraise {st : TraceSt} {rid path : K} {L : List Record}
    (ha : st.activeRunId = some rid)
    (hh : alookup st.sink.handles rid = some path)
    (hf : alookup st.sink.files path = some L)
    (spanId ts wts name fname : K) (durationMs : Value) (v : Value) (e : Exn) :
    spanWrapper spanId ts wts name fname durationMs (.ok v) st =
      (.ok v,
       ⟨st.app, st.env,
        ⟨st.sink.baseDir, st.sink.handles,
         aset st.sink.files path
           (L ++ [mkSpanRec spanId rid name ts
             [("function".data, Value.vstr fname),
              ("duration_ms".data, durationMs),
              ("status".data, Value.vstr "ok".data),
              ("error".data, Value.vnull)]])⟩,
        some rid,
        st.spans ++ [mkSpanRec spanId rid name ts
          [("function".data, Value.vstr fname),
           ("duration_ms".data, durationMs),
           ("status".data, Value.vstr "ok".data),
           ("error".data, Value.vnull)]]⟩) ∧
    spanWrapper spanId ts wts name fname durationMs (.error e) st =
      (.error e,
       ⟨st.app, st.env,
        ⟨st.sink.baseDir, st.sink.handles,
         aset st.sink.files path
           (L ++ [mkSpanRec spanId rid name ts
             [("function".data, Value.vstr fname),
              ("duration_ms".data, durationMs),
              ("status".data, Value.vstr "error".data),
              ("error".data, Value.vstr (exnStr e))]])⟩,
        some rid,
        st.spans ++ [mkSpanRec spanId rid name ts
          [("function".data, Value.vstr fname),
           ("duration_ms".data, durationMs),
           ("status".data, Value.vstr "error".data),
           ("error".data, Value.vstr (exnStr e))]]⟩) ∧
    alookup (mkSpanRec spanId rid name ts
        [("function".data, Value.vstr fname), ("duration_ms".data, durationMs),
         ("status".data, Value.vstr "ok".data), ("error".data, Value.vnull)])
      "record_type".data = some (.vstr "span".data) ∧
    alookup (mkSpanRec spanId rid name ts
        [("function".data, Value.vstr fname), ("duration_ms".data, durationMs),
         ("status".data, Value.vstr "ok".data), ("error".data, Value.vnull)])
      "name".data = some (.vstr name) ∧
    alookup (mkSpanRec spanId rid name ts
        [("function".data, Value.vstr fname), ("duration_ms".data, durationMs),
         ("status".data, Value.vstr "ok".data), ("error".data, Value.vnull)])
      "function".data = some (.vstr (redactStringL fname)) ∧
    alookup (mkSpanRec spanId rid name ts
        [("function".data, Value.vstr fname), ("duration_ms".data, durationMs),
         ("status".data, Value.vstr "ok".data), ("error".data, Value.vnull)])
      "duration_ms".data = some (safeV 1 10 durationMs) ∧
    alookup (mkSpanRec spanId rid name ts
        [("function".data, Value.vstr fname), ("duration_ms".data, durationMs),
         ("status".data, Value.vstr "ok".data), ("error".data, Value.vnull)])
      "status".data = some (.vstr "ok".data) ∧
    alookup (mkSpanRec spanId rid name ts
        [("function".data, Value.vstr fname), ("duration_ms".data, durationMs),
         ("status".data, Value.vstr "ok".data), ("error".data, Value.vnull)])
      "error".data = some Value.vnull ∧
    alookup (mkSpanRec spanId rid name ts
        [("function".data, Value.vstr fname), ("duration_ms".data, durationMs),
         ("status".data, Value.vstr "error".data),
         ("error".data, Value.vstr (exnStr e))])
      "status".data = some (.vstr "error".data) ∧
    alookup (mkSpanRec spanId rid name ts
        [("function".data, Value.vstr fname), ("duration_ms".data, durationMs),
         ("status".data, Value.vstr "error".data),
         ("error".data, Value.vstr (exnStr e))])
      "error".data = some (.vstr (redactStringL (exnStr e))) := by
  have hk1 : isSensitiveKey "function".data = false := by decide
  have hk2 : isSensitiveKey "duration_ms".data = false := by decide
  have hk3 : isSensitiveKey "status".data = false := by decide
  have hk4 : isSensitiveKey "error".data = false := by decide
  have hsfok : safeFieldsR
      [("function".data, Value.vstr fname), ("duration_ms".data, durationMs),
       ("status".data, Value.vstr "ok".data), ("error".data, Value.vnull)] =
      [("function".data, Value.vstr (redactStringL fname)),
       ("duration_ms".data, safeV 1 10 durationMs),
       ("status".data, Value.vstr "ok".data),
       ("error".data, Value.vnull)] := by
    rw [safeFieldsR, safeEntries]
    simp only [List.map_cons, List.map_nil, hk1, hk2, hk3, hk4,
      Bool.false_eq_true, if_false]
    rw [@safeV_str 1 10 (by omega) fname, @safeV_str 1 10 (by omega) "ok".data,
      (by decide : redactStringL "ok".data = "ok".data),
      @safeV_null 1 10 (by omega)]
  have hsferr : safeFieldsR
      [("function".data, Value.vstr fname), ("duration_ms".data, durationMs),
       ("status".data, Value.vstr "error".data),
       ("error".data, Value.vstr (exnStr e))] =
      [("function".data, Value.vstr (redactStringL fname)),
       ("duration_ms".data, safeV 1 10 durationMs),
       ("status".data, Value.vstr "error".data),
       ("error".data, Value.vstr (redactStringL (exnStr e)))] := by
    rw [safeFieldsR, safeEntries]
    simp only [List.map_cons, List.map_nil, hk1, hk2, hk3, hk4,
      Bool.false_eq_true, if_false]
    rw [@safeV_str 1 10 (by omega) fname, @safeV_str 1 10 (by omega) "error".data,
      (by decide : redactStringL "error".data = "error".data),
      @safeV_str 1 10 (by omega) (exnStr e)]
  have hok : mkSpanRec spanId rid name ts
      [("function".data, Value.vstr fname), ("duration_ms".data, durationMs),
       ("status".data, Value.vstr "ok".data), ("error".data, Value.vnull)] =
      [("record_type".data, Value.vstr "span".data),
       ("span_id".data, Value.vstr spanId),
       ("run_id".data, Value.vstr rid),
       ("name".data, Value.vstr name),
       ("timestamp".data, Value.vstr ts),
       ("function".data, Value.vstr (redactStringL fname)),
       ("duration_ms".data, safeV 1 10 durationMs),
       ("status".data, Value.vstr "ok".data),
       ("error".data, Value.vnull)] := by
    rw [mkSpanRec, hsfok]
    exact dlit_fresh _ rfl
  have herr : mkSpanRec spanId rid name ts
      [("function".data, Value.vstr fname), ("duration_ms".data, durationMs),
       ("status".data, Value.vstr "error".data),
       ("error".data, Value.vstr (exnStr e))] =
      [("record_type".data, Value.vstr "span".data),
       ("span_id".data, Value.vstr spanId),
       ("run_id".data, Value.vstr rid),
       ("name".data, Value.vstr name),
       ("timestamp".data, Value.vstr ts),
       ("function".data, Value.vstr (redactStringL fname)),
       ("duration_ms".data, safeV 1 10 durationMs),
       ("status".data, Value.vstr "error".data),
       ("error".data, Value.vstr (redactStringL (exnStr e)))] := by
    rw [mkSpanRec, hsferr]
    exact dlit_fresh _ rfl
  refine ⟨?_, ?_, by rw [hok]; rfl, by rw [hok]; rfl, by rw [hok]; rfl,
    by rw [hok]; rfl, by rw [hok]; rfl, by rw [hok]; rfl, by rw [herr]; rfl,
    by rw [herr]; rfl⟩
  · rw [spanWrapper.eq_def]
    dsimp only
    simp only [Bool.false_eq_true, if_false]
    rw [addSpan_ok ha hh hf spanId ts wts name
      [("function".data, Value.vstr fname), ("duration_ms".data, durationMs),
       ("status".data, Value.vstr "ok".data), ("error".data, Value.vnull)]]
  · rw [spanWrapper.eq_def]
    dsimp only
    simp only [eq_self_iff_true, if_true]
    rw [addSpan_ok ha hh hf spanId ts wts name
      [("function".data, Value.vstr fname), ("duration_ms".data, durationMs),
       ("status".data, Value.vstr "error".data),
       ("error".data, Value.vstr (exnStr e))]]

/-- Witness for C6 inside a concrete active session. -/
theorem c6_wrapper_span_and_reraise_w :
    actSt.activeRunId = some "r1".data ∧
    alookup (mkSpanRec "s1".data "r1".data "nm".data "t1".data
        [("function".data, Value.vstr "fn".data),
         ("duration_ms".data, Value.vnum 7),
         ("status".data, Value.vstr "error".data),
         ("error".data, Value.vstr (exnStr (Exn.user "ValueError".data "boom".data)))])
      "status".data = some (.vstr "error".data) :=
  ⟨rfl,
    (@c6_wrapper_span_and_reraise actSt "r1".data "p1".data [] rfl rfl rfl
        "s1".data "t1".data "w1".data "nm".data "fn".data (Value.vnum 7)
        Value.vnull
        (Exn.user "ValueError".data "boom".data)).2.2.2.2.2.2.2.2.1⟩

/-- Membership in `aset`: every entry comes from the original list or is the
new key. -/
theorem mem_aset {A : Type} (r : List (K × A)) (k : K) (v : A) (p : K × A)
    (hp : p ∈ aset r k v) : (∃ q ∈ r, p.1 = q.1) ∨ p.1 = k := by
  rw [aset] at hp
  by_cases hc : ahas r k
  · rw [if_pos hc] at hp
    obtain ⟨q, hq, hqe⟩ := List.mem_map.mp hp
    by_cases hqk : (q.1 == k) = true
    · rw [if_pos hqk] at hqe
      right
      rw [← hqe]
    · rw [if_neg hqk] at hqe
      left
      exact ⟨q, hq, by rw [← hqe]⟩
  · rw [if_neg hc] at hp
    rcases List.mem_append.mp hp with h | h
    · left
      exact ⟨p, h, rfl⟩
    · right
      rw [List.mem_singleton] at h
      rw [h]

/-- Membership after folding entries in: every key comes from the base or
from the folded list. -/
theorem mem_foldl_aset {A : Type} (l2 : List (K × A)) :
    ∀ r : List (K × A), ∀ p ∈ l2.foldl (fun r q => aset r q.1 q.2) r,
      (∃ q ∈ r, p.1 = q.1) ∨ (∃ q ∈ l2, p.1 = q.1) := by
  induction l2 with
  | nil => intro r p hp; exact .inl ⟨p, hp, rfl⟩
  | cons q rest ih =>
    intro r p hp
    simp only [List.foldl_cons] at hp
    rcases ih _ p hp with h | h
    · obtain ⟨q2, hq2, hpk⟩ := h
      rcases mem_aset r q.1 q.2 q2 hq2 with h2 | h2
      · obtain ⟨q3, hq3, hk3⟩ := h2
        exact .inl ⟨q3, hq3, by rw [hpk, hk3]⟩
      · exact .inr ⟨q, List.mem_cons_self q rest, by rw [hpk, h2]⟩
    · obtain ⟨q2, hq2, hk2⟩ := h
      exact .inr ⟨q2, List.mem_cons_of_mem q hq2, hk2⟩

/-- Every key of `dlit l` is a key of `l`. -/
theorem dlit_keys (l : List (K × Value)) : ∀ p ∈ dlit l, ∃ q ∈ l, p.1 = q.1 := by
  intro p hp
  rcases mem_foldl_aset l [] p hp with h | h
  · obtain ⟨q, hq, _⟩ := h
    simp at hq
  · exact h

/-- Sanitizing a kwargs dict preserves its keys. -/
theorem safeEntries_keys (d m : Nat) (l : List (K × Value)) :
    ∀ p ∈ safeEntries d m l, ∃ q ∈ l, p.1 = q.1 := by
  intro p hp
  obtain ⟨q, hq, he⟩ := List.mem_map.mp hp
  refine ⟨q, hq, ?_⟩
  by_cases hs : isSensitiveKey q.1 = true
  · rw [if_pos hs] at he
    rw [← he]
  · rw [if_neg hs] at he
    rw [← he]

/-- Every record produced by the session body is a span record. -/
theorem bodyRecs_mem (g : Gen) (rid : K) :
    ∀ calls : List SpanCall, ∀ i : Nat, ∀ r ∈ bodyRecs g rid i calls,
      ∃ j nm fl, r = mkSpanRec (g.spanId j) rid nm (g.spanTs j) fl := by
  intro calls
  induction calls with
  | nil => intro i r hr; simp [bodyRecs] at hr
  | cons c rest ih =>
    intro i r hr
    obtain ⟨nm0, fl0⟩ := c
    simp only [bodyRecs] at hr
    rcases List.mem_cons.mp hr with h | h
    · exact ⟨i, nm0, fl0, h⟩
    · exact ih (i + 1) r h

/-- The metadata record carries a `record_type` key. -/
theorem mkMetaRec_rt (runId ts : K) (metadata : Record) :
    ahas (mkMetaRec runId ts metadata) "record_type".data = true := by
  rw [mkMetaRec, dlit, List.foldl_append]
  exact ahas_foldl_aset _ _ _ rfl

/-- The metadata record carries a `timestamp` key. -/
theorem mkMetaRec_hts (runId ts : K) (metadata : Record) :
    ahas (mkMetaRec runId ts metadata) "timestamp".data = true := by
  rw [mkMetaRec, dlit, List.foldl_append]
  exact ahas_foldl_aset _ _ _ rfl

/-- The span record carries a `record_type` key. -/
theorem mkSpanRec_rt (spanId rid name ts : K) (fields : Record) :
    ahas (mkSpanRec spanId rid name ts fields) "record_type".data = true := by
  rw [mkSpanRec, dlit, List.foldl_append]
  exact ahas_foldl_aset _ _ _ rfl

/-- When the caller's field names avoid the five engine keys, the span
record keeps the engine's discriminator and identity fields. -/
theorem mkSpanRec_disc (spanId rid name ts : K) (fields : Record)
    (hf : ∀ p ∈ fields, p.1 ≠ "record_type".data ∧ p.1 ≠ "span_id".data ∧
      p.1 ≠ "run_id".data ∧ p.1 ≠ "name".data ∧ p.1 ≠ "timestamp".data) :
    alookup (mkSpanRec spanId rid name ts fields) "record_type".data =
      some (.vstr "span".data) ∧
    alookup (mkSpanRec spanId rid name ts fields) "span_id".data =
      some (.vstr spanId) ∧
    alookup (mkSpanRec spanId rid name ts fields) "run_id".data =
      some (.vstr rid) ∧
    alookup (mkSpanRec spanId rid name ts fields) "name".data =
      some (.vstr name) ∧
    alookup (mkSpanRec spanId rid name ts fields) "timestamp".data =
      some (.vstr ts) := by
  have hunf : mkSpanRec spanId rid name ts fields =
      (safeFieldsR fields).foldl (fun r p => aset r p.1 p.2)
        (dlit [("record_type".data, Value.vstr "span".data),
               ("span_id".data, Value.vstr spanId),
               ("run_id".data, Value.vstr rid),
               ("name".data, Value.vstr name),
               ("timestamp".data, Value.vstr ts)]) := by
    rw [mkSpanRec, dlit, dlit, List.foldl_append]
  have hkeys : ∀ p ∈ safeFieldsR fields,
      p.1 ≠ "record_type".data ∧ p.1 ≠ "span_id".data ∧ p.1 ≠ "run_id".data ∧
      p.1 ≠ "name".data ∧ p.1 ≠ "timestamp".data := by
    intro p hp
    obtain ⟨q, hq, he⟩ := safeEntries_keys 0 10 fields p hp
    have h5 := hf q hq
    rw [he]
    exact h5
  refine ⟨?_, ?_, ?_, ?_, ?_⟩
  · rw [hunf, alookup_foldl_aset_ne _ _ _ (fun p hp => (hkeys p hp).1)]
    rfl
  · rw [hunf, alookup_foldl_aset_ne _ _ _ (fun p hp => (hkeys p hp).2.1)]
    rfl
  · rw [hunf, alookup_foldl_aset_ne _ _ _ (fun p hp => (hkeys p hp).2.2.1)]
    rfl
  · rw [hunf, alookup_foldl_aset_ne _ _ _ (fun p hp => (hkeys p hp).2.2.2.1)]
    rfl
  · rw [hunf, alookup_foldl_aset_ne _ _ _ (fun p hp => (hkeys p hp).2.2.2.2)]
    rfl

/-- A field of the `i`-th record of the run's file. -/
def lineField (st : TraceSt) (path : K) (i : Nat) (k : K) : Option Value :=
  match ((alookup st.sink.files path).getD []).get? i with
  | some r => alookup r k
  | none => none

/-- C9: counterexample — a caller-supplied field named `record_type`
OVERWRITES the engine's discriminator: the span line of this concrete
session carries `record_type` "evil", not "span", so streams are NOT
well-discriminated for arbitrary caller-supplied field names. -/
theorem c9_record_type_override_cex :
    lineField
        (runSession cGen []
          [("evil".data, [("record_type".data, Value.vstr "evil".data)])]
          none st00).2
        (mkPath "base".data cGen.runId cGen.openTs) 1 "record_type".data =
      some (Value.vstr "evil".data) ∧
    "evil".data ≠ "span".data := by
  exact ⟨rfl, by decide⟩

/-- C9 (amended): when caller-supplied metadata keys avoid the metadata
record's three engine keys and span field names avoid the span record's five
engine keys, every line of the stream is well-discriminated: the except-free
session's file holds the expected lines, the metadata line has
`record_type` "metadata", each span line keeps `record_type` "span" and its
engine identity fields, the summary line has `record_type` "summary", and
every line carries `record_type` and `timestamp` keys. -/
theorem c9_record_discrimination (g : Gen) (metadata : Record)
    (calls : List SpanCall) (st0 : TraceSt)
    (hmeta : ∀ p ∈ metadata, p.1 ≠ "record_type".data ∧ p.1 ≠ "run_id".data ∧
      p.1 ≠ "timestamp".data)
    (hfields : ∀ c ∈ calls, ∀ p ∈ c.2, p.1 ≠ "record_type".data ∧
      p.1 ≠ "span_id".data ∧ p.1 ≠ "run_id".data ∧ p.1 ≠ "name".data ∧
      p.1 ≠ "timestamp".data) :
    alookup (runSession g metadata calls none st0).2.sink.files
        (mkPath st0.sink.baseDir g.runId g.openTs) =
      some (expLines g st0.app st0.env metadata calls) ∧
    alookup (sessionMetaRec g st0.app st0.env metadata) "record_type".data =
      some (.vstr "metadata".data) ∧
    (∀ i name fields, calls.get? i = some (name, fields) →
      alookup (mkSpanRec (g.spanId i) g.runId name (g.spanTs i) fields)
          "record_type".data = some (.vstr "span".data) ∧
      alookup (mkSpanRec (g.spanId i) g.runId name (g.spanTs i) fields)
          "span_id".data = some (.vstr (g.spanId i)) ∧
      alookup (mkSpanRec (g.spanId i) g.runId name (g.spanTs i) fields)
          "run_id".data = some (.vstr g.runId) ∧
      alookup (mkSpanRec (g.spanId i) g.runId name (g.spanTs i) fields)
          "name".data = some (.vstr name) ∧
      alookup (mkSpanRec (g.spanId i) g.runId name (g.spanTs i) fields)
          "timestamp".data = some (.vstr (g.spanTs i))) ∧
    alookup (mkSummaryRec g.runId g.durationMs calls.length g.sumTs)
        "record_type".data = some (.vstr "summary".data) ∧
    (∀ r ∈ expLines g st0.app st0.env metadata calls,
      ahas r "record_type".data = true ∧ ahas r "timestamp".data = true) := by
  refine ⟨?_, ?_, ?_, rfl, ?_⟩
  · obtain ⟨stF, heq, hfiles, _, _, _⟩ := runSession_ok g metadata calls st0
    rw [heq]
    exact hfiles
  · have hm1 : ∀ p ∈ dlit ([("app".data, Value.vstr st0.app),
        ("env".data, Value.vstr st0.env)] ++ metadata),
        p.1 ≠ "record_type".data := by
      intro p hp
      obtain ⟨q, hq, he⟩ := dlit_keys _ p hp
      rcases List.mem_append.mp hq with h | h
      · have h2 : q.1 = "app".data ∨ q.1 = "env".data := by
          rcases List.mem_cons.mp h with h3 | h3
          · left; rw [h3]
          · right
            rw [List.mem_singleton] at h3
            rw [h3]
        rcases h2 with h3 | h3 <;> rw [he, h3] <;> decide
      · rw [he]
        exact (hmeta q h).1
    rw [sessionMetaRec]
    have hunf : mkMetaRec g.runId g.openTs
        (dlit ([("app".data, Value.vstr st0.app),
          ("env".data, Value.vstr st0.env)] ++ metadata)) =
        (dlit ([("app".data, Value.vstr st0.app),
          ("env".data, Value.vstr st0.env)] ++ metadata)).foldl
          (fun r p => aset r p.1 p.2)
          (dlit [("record_type".data, Value.vstr "metadata".data),
                 ("run_id".data, Value.vstr g.runId),
                 ("timestamp".data, Value.vstr g.openTs)]) := by
      rw [mkMetaRec]
      simp only [dlit]
      rw [List.foldl_append]
    rw [hunf, alookup_foldl_aset_ne _ _ _ hm1]
    rfl
  · intro i name fields hget
    exact mkSpanRec_disc (g.spanId i) g.runId name (g.spanTs i) fields
      (fun p hp => hfields (name, fields) (List.get?_mem hget) p hp)
  · intro r hr
    rcases List.mem_cons.mp hr with h | h
    · rw [h, sessionMetaRec]
      exact ⟨mkMetaRec_rt _ _ _, mkMetaRec_hts _ _ _⟩
    · rcases List.mem_append.mp h with h2 | h2
      · obtain ⟨j, nm, fl, he⟩ := bodyRecs_mem g g.runId calls 0 r h2
        rw [he]
        exact ⟨mkSpanRec_rt _ _ _ _ _, mkSpanRec_ts _ _ _ _ _⟩
      · rw [List.mem_singleton] at h2
        rw [h2]
        exact ⟨rfl, rfl⟩

/-- Witness for C9 at a concrete session with unreserved field names. -/
theorem c9_record_discrimination_w :
    alookup (mkSpanRec (cGen.spanId 0) cGen.runId "llm.call".data (cGen.spanTs 0)
        [("model".data, Value.vstr "gpt-4".data)]) "record_type".data =
      some (.vstr "span".data) ∧
    alookup (mkSummaryRec cGen.runId cGen.durationMs 1 cGen.sumTs)
        "record_type".data = some (.vstr "summary".data) := by
  have h := c9_record_discrimination cGen
    [("scenario".data, Value.vstr "demo".data)]
    [("llm.call".data, [("model".data, Value.vstr "gpt-4".data)])] st00
    (by
      intro p hp
      rw [List.mem_singleton] at hp
      subst hp
      exact ⟨by decide, by decide, by decide⟩)
    (by
      intro c hc
      rw [List.mem_singleton] at hc
      subst hc
      intro p hp
      rw [List.mem_singleton] at hp
      subst hp
      exact ⟨by decide, by decide, by decide, by decide, by decide⟩)
  exact ⟨(h.2.2.1 0 "llm.call".data
      [("model".data, Value.vstr "gpt-4".data)] rfl).1, h.2.2.2.1⟩

end Valiqor
